import Mathlib

/-
  Verification of the pull-based operator pipeline of the distributed query
  engine (src/src/query/plan/operator.cpp).

  Every cursor is modelled as an explicit state-passing step function.  A
  C++ `bool Pull(Frame&, Context&)` becomes a Lean function from the cursor
  state (and the current frame) to a result paired with the next state;
  `true` is `some frame` (Produced), `false` is `none` (Exhausted), and a
  thrown `QueryRuntimeException` becomes `Except.error` with a constructor
  identifying the throw site.  Input cursors are modelled by the list of
  rows they would produce, consumed from the front.  Expression evaluation
  (an AST walk over out-of-scope headers) is modelled by the value the
  expression evaluates to, or by an explicit function parameter where the
  expression is evaluated against the frame.
-/

namespace MG

/- TypedValue: the runtime tagged union of the engine (spec section 3).
Vertex and edge accessors compare by global address, modelled as a Nat
identifier.  Lists and maps are mutual inductives so that decidable
equality can be derived. -/
mutual
/-- TypedValue: the tagged union over null, bool, int, string, list, map,
vertex accessor and edge accessor. -/
inductive TV where
  | null
  | bool (b : Bool)
  | int (n : Int)
  | str (s : String)
  | vertex (v : Nat)
  | edge (e : Nat)
  | list (l : TVList)
  | map (m : TVMap)
  deriving DecidableEq, Repr
inductive TVList where
  | nil
  | cons (hd : TV) (tl : TVList)
  deriving DecidableEq, Repr
inductive TVMap where
  | nil
  | cons (key : String) (val : TV) (tl : TVMap)
  deriving DecidableEq, Repr
end

/-- Whether a TypedValue is Null (TypedValue::IsNull). -/
def TV.isNull : TV → Bool
  | .null => true
  | _ => false

/-- Whether a TypedValue holds a vertex accessor. -/
def TV.isVertex : TV → Bool
  | .vertex _ => true
  | _ => false

/-- Whether a TypedValue holds an edge accessor. -/
def TV.isEdge : TV → Bool
  | .edge _ => true
  | _ => false

/-- Modelled from the spec: TypedValue::BoolEqual, the null-aware equality
used by Distinct and by group-by keys (typed_value.hpp is not under src/).
Two nulls compare equal, a null never equals a non-null, and other values
compare structurally. -/
def TV.boolEqual (a b : TV) : Bool :=
  match a, b with
  | .null, .null => true
  | .null, _ => false
  | _, .null => false
  | _, _ => decide (a = b)

/-- TypedValueVectorEqual over two rows of the same width: element-wise
BoolEqual (operator.cpp line 2358). -/
def rowEqual (l r : List TV) : Bool :=
  l.length == r.length && (l.zip r).all (fun p => TV.boolEqual p.1 p.2)

/-- The errors thrown by the modelled operators.  Every constructor is a
QueryRuntimeException throw site in operator.cpp; the constructor name
identifies the message. -/
inductive Err where
  /-- ExpectType failure: the value of a symbol does not have the expected
  type (operator.cpp line 65). -/
  | typeMismatch
  /-- EvaluateInt failure for an expansion bound: Variable expansion bound
  must be an int (operator.cpp line 810). -/
  | boundMustBeInt
  /-- Variable expansion bound must be positive or zero (operator.cpp
  line 902). -/
  | boundNegative
  /-- Filter expression must be a bool or null (operator.cpp line 78). -/
  | filterMustBeBool
  /-- Result of SKIP expression must be an int (operator.cpp line 2399). -/
  | skipMustBeInt
  /-- Result of SKIP expression must be greater or equal to zero
  (operator.cpp line 2403). -/
  | skipNegative
  /-- Result of LIMIT expression must be an int (operator.cpp line 2453). -/
  | limitMustBeInt
  /-- Result of LIMIT expression must be greater or equal to zero
  (operator.cpp line 2457). -/
  | limitNegative
  /-- Can only delete edges and vertices (operator.cpp line 1644). -/
  | deleteOnlyEdgesAndVertices
  /-- Failed to remove vertex because of its existing connections
  (operator.cpp line 1631). -/
  | connectedVertexDeletion
  deriving DecidableEq, Repr

/-- A frame as a total map from symbol positions to values.  The real frame
is a fixed-width vector indexed by symbol position; a total function keeps
the lookup and in-place update rules simple. -/
def FrameF : Type := Nat → TV

/-- frame[symbol] = value : in-place update of one slot. -/
def frameSet (f : FrameF) (s : Nat) (v : TV) : FrameF :=
  fun i => if i = s then v else f i

theorem frameSet_same (f : FrameF) (s : Nat) (v : TV) : frameSet f s v s = v := by
  simp [frameSet]

theorem frameSet_other (f : FrameF) (s i : Nat) (v : TV) (h : i ≠ s) :
    frameSet f s v i = f i := by
  simp [frameSet, h]

/-- Write a list of (symbol, value) pairs into the frame, left to right. -/
def writeRow (syms : List Nat) (vals : List TV) (f : FrameF) : FrameF :=
  (syms.zip vals).foldl (fun f p => frameSet f p.1 p.2) f

/- ===================== Once (operator.cpp lines 85-97) ===================== -/

/-- State of Once::OnceCursor: a single flag. -/
structure OnceCursor where
  did_pull : Bool
  deriving DecidableEq, Repr

/-- Once::OnceCursor::Pull (operator.cpp line 85): yield one empty row,
then exhaust.  `true` means Produced, `false` means Exhausted. -/
def OnceCursor.pull (c : OnceCursor) : Bool × OnceCursor :=
  if !c.did_pull then (true, { did_pull := true }) else (false, c)

/-- The result of the n-th pull (0-based) from a fresh OnceCursor. -/
def OnceCursor.pullN : Nat → Bool × OnceCursor
  | 0 => OnceCursor.pull { did_pull := false }
  | n + 1 => OnceCursor.pull (OnceCursor.pullN n).2

/- ================ Aggregate (operator.cpp lines 2084-2356) ================ -/

/-- Aggregation kinds (Aggregation::Op). -/
inductive AggOp where
  | count
  | sum
  | min
  | max
  | avg
  | collectList
  | collectMap
  deriving DecidableEq, Repr

/-- DefaultAggregationOpValue (operator.cpp line 2115): count starts at 0,
the numeric aggregations at null, the collects at an empty container. -/
def DefaultAggregationOpValue : AggOp → TV
  | .count => .int 0
  | .sum => .null
  | .min => .null
  | .max => .null
  | .avg => .null
  | .collectList => .list .nil
  | .collectMap => .map .nil

/-- AggregationValue: per-group running values, update counts and captured
remember values. -/
structure AggGroup where
  values : List TV
  counts : List Nat
  remember : List TV

/-- The static data of an Aggregate operator.  Aggregation input
expressions and TypedValue arithmetic live in out-of-scope headers, so the
whole of AggregateCursor::Update is a function parameter `updateFn`, and
the division at AVG finalisation is `avgDiv`.  Group-by expressions are
functions of the frame; `aggregations` pairs each op with its output
symbol. -/
structure AggregateDef where
  aggregations : List (AggOp × Nat)
  groupBy : List (FrameF → TV)
  remember : List Nat
  updateFn : FrameF → AggGroup → Except Err AggGroup
  avgDiv : TV → Nat → TV

/-- Lookup in aggregation_, a hash map keyed with TypedValueVectorEqual. -/
def aggFind : List (List TV × AggGroup) → List TV → Option AggGroup
  | [], _ => none
  | (k0, g0) :: t, k => if rowEqual k0 k then some g0 else aggFind t k

/-- Store into aggregation_ under the given key (insert or overwrite). -/
def aggStore : List (List TV × AggGroup) → List TV → AggGroup → List (List TV × AggGroup)
  | [], k, g => [(k, g)]
  | (k0, g0) :: t, k, g =>
      if rowEqual k0 k then (k0, g) :: t else (k0, g0) :: aggStore t k g

/-- AggregateCursor::EnsureInitialized (operator.cpp line 2199): when the
group value vector is empty, fill in the defaults, zero the counts and
capture the remember symbols from the frame. -/
def Aggregate.ensureInitialized (self : AggregateDef) (fr : FrameF) (g : AggGroup) : AggGroup :=
  if g.values.isEmpty then
    { values := self.aggregations.map (fun a => DefaultAggregationOpValue a.1),
      counts := List.replicate self.aggregations.length 0,
      remember := g.remember ++ self.remember.map fr }
  else g

/-- AggregateCursor::ProcessOne (operator.cpp line 2185): evaluate the
group-by key, fetch or create its AggregationValue, initialise it if
needed and run Update on it. -/
def Aggregate.processOne (self : AggregateDef) (fr : FrameF)
    (agg : List (List TV × AggGroup)) : Except Err (List (List TV × AggGroup)) :=
  let key := self.groupBy.map (fun e => e fr)
  let g0 := (aggFind agg key).getD { values := [], counts := [], remember := [] }
  match self.updateFn fr (Aggregate.ensureInitialized self fr g0) with
  | .error e => .error e
  | .ok g1 => .ok (aggStore agg key g1)

/-- The AVG finalisation pass over one value vector (operator.cpp
line 2173): positions whose op is AVG with a positive count are divided by
the count. -/
def avgFixValues (avgDiv : TV → Nat → TV) :
    List (AggOp × Nat) → List TV → List Nat → List TV
  | (op, _) :: aggs, v :: vs, c :: cs =>
      (if op = .avg ∧ 0 < c then avgDiv v c else v) :: avgFixValues avgDiv aggs vs cs
  | _, vs, _ => vs

/-- AVG finalisation for one group. -/
def Aggregate.avgFinalize (self : AggregateDef) (g : AggGroup) : AggGroup :=
  { g with values := avgFixValues self.avgDiv self.aggregations g.values g.counts }

/-- AggregateCursor::ProcessAll (operator.cpp line 2167): drain the input,
folding ProcessOne, then run the AVG pass over every group. -/
def Aggregate.processAll (self : AggregateDef) :
    List FrameF → List (List TV × AggGroup) → Except Err (List (List TV × AggGroup))
  | [], agg => .ok (agg.map (fun kg => (kg.1, Aggregate.avgFinalize self kg.2)))
  | f :: rest, agg =>
      match Aggregate.processOne self f agg with
      | .error e => .error e
      | .ok agg2 => Aggregate.processAll self rest agg2

/-- State of Aggregate::AggregateCursor: the not-yet-consumed input rows,
the pulled_all_input_ flag, the aggregation_ map and the iterator
position. -/
structure AggState where
  input : List FrameF
  pulledAll : Bool
  agg : List (List TV × AggGroup)
  it : Nat

/-- A fresh AggregateCursor over the given input rows. -/
def AggState.initial (input : List FrameF) : AggState :=
  { input := input, pulledAll := false, agg := [], it := 0 }

/-- The streaming part of AggregateCursor::Pull (operator.cpp lines
2151-2164): exhausted when the iterator is at the end, otherwise write the
group values to the aggregation output symbols and the remember values to
the remember symbols and step the iterator. -/
def Aggregate.emit (self : AggregateDef) (s : AggState) (fr : FrameF) :
    Except Err (Option FrameF × AggState) :=
  match s.agg[s.it]? with
  | none => .ok (none, s)
  | some kg =>
      let fr1 := writeRow (self.aggregations.map Prod.snd) kg.2.values fr
      let fr2 := writeRow self.remember kg.2.remember fr1
      .ok (some fr2, { s with it := s.it + 1 })

/-- Null every remember symbol, then every aggregation output symbol takes
its default: the synthetic row of Aggregate on empty input with no
group-by (operator.cpp lines 2140-2148). -/
def Aggregate.defaultRow (self : AggregateDef) (fr : FrameF) : FrameF :=
  (self.remember).foldl (fun f s => frameSet f s TV.null)
    ((self.aggregations).foldl (fun f a => frameSet f a.2 (DefaultAggregationOpValue a.1)) fr)

/-- Aggregate::AggregateCursor::Pull (operator.cpp line 2132).  On the
first call ProcessAll drains the input; if both the resulting map and the
group-by list are empty the single default row is produced, otherwise the
groups are streamed. -/
def Aggregate.pull (self : AggregateDef) (s : AggState) (fr : FrameF) :
    Except Err (Option FrameF × AggState) :=
  if s.pulledAll then Aggregate.emit self s fr
  else
    match Aggregate.processAll self s.input [] with
    | .error e => .error e
    | .ok agg =>
        let s2 : AggState := { input := [], pulledAll := true, agg := agg, it := 0 }
        if agg.isEmpty && self.groupBy.isEmpty then
          .ok (some (Aggregate.defaultRow self fr), s2)
        else Aggregate.emit self s2 fr

/- ====================== Frame-write helper lemmas ====================== -/

theorem foldl_set_null_get (rem : List Nat) (f : FrameF) (i : Nat) :
    (rem.foldl (fun f s => frameSet f s TV.null) f) i =
      if i ∈ rem then TV.null else f i := by
  induction rem generalizing f with
  | nil => simp
  | cons a t ih =>
      simp only [List.foldl_cons, ih, List.mem_cons]
      by_cases ht : i ∈ t
      · simp [ht]
      · by_cases ha : i = a
        · simp [ht, ha, frameSet_same]
        · simp [ht, ha, frameSet_other _ _ _ _ ha]

theorem foldl_set_defaults_not_mem (aggs : List (AggOp × Nat)) (f : FrameF) (i : Nat)
    (h : i ∉ aggs.map Prod.snd) :
    (aggs.foldl (fun f a => frameSet f a.2 (DefaultAggregationOpValue a.1)) f) i = f i := by
  induction aggs generalizing f with
  | nil => simp
  | cons a t ih =>
      simp only [List.map_cons, List.mem_cons, not_or] at h
      simp only [List.foldl_cons, ih _ h.2, frameSet_other _ _ _ _ h.1]

theorem foldl_set_defaults_mem (aggs : List (AggOp × Nat)) (f : FrameF) (op : AggOp)
    (s : Nat) (hmem : (op, s) ∈ aggs) (hnd : (aggs.map Prod.snd).Nodup) :
    (aggs.foldl (fun f a => frameSet f a.2 (DefaultAggregationOpValue a.1)) f) s =
      DefaultAggregationOpValue op := by
  induction aggs generalizing f with
  | nil => simp at hmem
  | cons a t ih =>
      simp only [List.map_cons, List.nodup_cons] at hnd
      rcases List.mem_cons.mp hmem with h | h
      · subst h
        simp only [List.foldl_cons]
        rw [foldl_set_defaults_not_mem t _ s hnd.1, frameSet_same]
      · exact ih _ h hnd.2

/-- The synthetic default row holds the default value at every aggregation
output symbol, given that the output and remember symbols do not clash. -/
theorem Aggregate.defaultRow_agg (self : AggregateDef) (fr : FrameF) (op : AggOp) (s : Nat)
    (hmem : (op, s) ∈ self.aggregations)
    (hnd : (self.aggregations.map Prod.snd ++ self.remember).Nodup) :
    Aggregate.defaultRow self fr s = DefaultAggregationOpValue op := by
  have hdis := List.disjoint_of_nodup_append hnd
  have hs : s ∈ self.aggregations.map Prod.snd :=
    List.mem_map.mpr ⟨(op, s), hmem, rfl⟩
  have hrem : s ∉ self.remember := fun hc => hdis hs hc
  unfold Aggregate.defaultRow
  rw [foldl_set_null_get]
  simp only [hrem, if_false]
  exact foldl_set_defaults_mem _ _ _ _ hmem (List.Nodup.of_append_left hnd)

/-- The synthetic default row holds null at every remember symbol. -/
theorem Aggregate.defaultRow_remember (self : AggregateDef) (fr : FrameF) (s : Nat)
    (hmem : s ∈ self.remember) :
    Aggregate.defaultRow self fr s = TV.null := by
  unfold Aggregate.defaultRow
  rw [foldl_set_null_get]
  simp [hmem]

/- ============ Helper lemmas about the Aggregate pull machine ============ -/

theorem Aggregate.emit_none_inv (self : AggregateDef) (s : AggState) (fr : FrameF)
    (s' : AggState) (h : Aggregate.emit self s fr = .ok (none, s')) :
    s' = s ∧ s.agg[s.it]? = none := by
  unfold Aggregate.emit at h
  cases hg : s.agg[s.it]? with
  | none =>
      rw [hg] at h
      injection h with h2
      injection h2 with h3 h4
      exact ⟨h4.symm, rfl⟩

  | some kg => rw [hg] at h; simp at h

/-- After a pull has returned Exhausted, the state has pulled_all_input_
set and the iterator at the end. -/
theorem Aggregate.pull_none_inv (self : AggregateDef) (s : AggState) (fr : FrameF)
    (s' : AggState) (h : Aggregate.pull self s fr = .ok (none, s')) :
    s'.pulledAll = true ∧ s'.agg[s'.it]? = none := by
  unfold Aggregate.pull at h
  by_cases hp : s.pulledAll
  · rw [if_pos hp] at h
    obtain ⟨rfl, hend⟩ := Aggregate.emit_none_inv self s fr s' h
    exact ⟨hp, hend⟩
  · rw [if_neg hp] at h
    cases hpa : Aggregate.processAll self s.input [] with
    | error e => rw [hpa] at h; simp at h
    | ok agg =>
        rw [hpa] at h
        simp only at h
        by_cases hcond : (agg.isEmpty && self.groupBy.isEmpty) = true
        · rw [if_pos hcond] at h; simp at h
        · rw [if_neg hcond] at h
          obtain ⟨rfl, hend⟩ := Aggregate.emit_none_inv self _ fr s' h
          exact ⟨rfl, hend⟩

/- ===================== Concrete instances for witnesses ===================== -/

/-- A frame with null everywhere. -/
def frame0 : FrameF := fun _ => TV.null

/-- A concrete Aggregate operator with one count aggregation, no group-by
and one remember symbol. -/
def aggDef0 : AggregateDef :=
  { aggregations := [(AggOp.count, 0)], groupBy := [], remember := [1],
    updateFn := fun _ g => .ok g, avgDiv := fun v _ => v }

/-- A concrete Aggregate operator with a group-by expression present. -/
def aggDef1 : AggregateDef :=
  { aggregations := [(AggOp.count, 0)], groupBy := [fun _ => TV.null], remember := [],
    updateFn := fun _ g => .ok g, avgDiv := fun v _ => v }

/-- The state of an Aggregate cursor that has drained an empty input. -/
def aggSDone : AggState := { input := [], pulledAll := true, agg := [], it := 0 }

/-- Claim C3: once a cursor has returned Exhausted, every further pull
returns Exhausted (no Reset intervening): (1) OnceCursor is absorbing at
Exhausted; (2) a fresh Once yields exactly one row, then Exhausted forever;
(3) AggregateCursor is absorbing at Exhausted; (4) Aggregate over an empty
input with no group-by yields its single default row exactly once. -/
theorem pull_idempotent_after_exhausted :
    (∀ c : OnceCursor, (OnceCursor.pull c).1 = false →
        OnceCursor.pull (OnceCursor.pull c).2 = (false, (OnceCursor.pull c).2)) ∧
    ((OnceCursor.pullN 0).1 = true ∧ ∀ n : Nat, (OnceCursor.pullN (n + 1)).1 = false) ∧
    (∀ (self : AggregateDef) (s s' : AggState) (fr fr2 : FrameF),
        Aggregate.pull self s fr = .ok (none, s') →
        Aggregate.pull self s' fr2 = .ok (none, s')) ∧
    (∀ (self : AggregateDef) (fr : FrameF),
        self.groupBy = [] →
        Aggregate.pull self (AggState.initial []) fr =
          .ok (some (Aggregate.defaultRow self fr), aggSDone) ∧
        ∀ fr2 : FrameF, Aggregate.pull self aggSDone fr2 = .ok (none, aggSDone)) := by
  refine ⟨?_, ⟨rfl, ?_⟩, ?_, ?_⟩
  · intro c h
    rcases c with ⟨b⟩
    cases b
    · simp [OnceCursor.pull] at h
    · simp [OnceCursor.pull]
  · intro n
    have hstate : ∀ m : Nat, (OnceCursor.pullN m).2 = { did_pull := true } := by
      intro m
      induction m with
      | zero => rfl
      | succ k ih => simp [OnceCursor.pullN, ih, OnceCursor.pull]
    simp [OnceCursor.pullN, hstate n, OnceCursor.pull]
  · intro self s s' fr fr2 h
    obtain ⟨hp, hend⟩ := Aggregate.pull_none_inv self s fr s' h
    unfold Aggregate.pull
    rw [if_pos hp]
    unfold Aggregate.emit
    rw [hend]
  · intro self fr hgb
    constructor
    · unfold Aggregate.pull AggState.initial
      simp only [if_neg (Bool.false_ne_true ∘ id)]
      unfold Aggregate.processAll
      simp [hgb, aggSDone]
    · intro fr2
      unfold Aggregate.pull aggSDone
      simp only [if_pos rfl]
      unfold Aggregate.emit
      simp

/-- Witness for C3: the absorbing and in-particular parts applied at the
concrete cursors aggDef1 (group-by present, empty input) and a spent
OnceCursor. -/
theorem pull_idempotent_after_exhausted_witness :
    OnceCursor.pull (OnceCursor.pull { did_pull := true }).2 =
        (false, (OnceCursor.pull { did_pull := true }).2) ∧
    Aggregate.pull aggDef1 aggSDone frame0 = .ok (none, aggSDone) ∧
    Aggregate.pull aggDef0 (AggState.initial []) frame0 =
        .ok (some (Aggregate.defaultRow aggDef0 frame0), aggSDone) := by
  refine ⟨pull_idempotent_after_exhausted.1 { did_pull := true } rfl, ?_, ?_⟩
  · exact pull_idempotent_after_exhausted.2.2.1 aggDef1 (AggState.initial []) aggSDone
      frame0 frame0 rfl
  · exact (pull_idempotent_after_exhausted.2.2.2 aggDef0 frame0 rfl).1

/-- Claim C5: when the input of Aggregate is empty, a group-by expression
being present means zero output rows; no group-by means exactly one output
row holding the default value at every aggregation output symbol (count 0,
sum avg min max null, collect empty) and null at every remember symbol. -/
theorem aggregate_empty_input :
    (∀ (self : AggregateDef) (fr : FrameF),
        self.groupBy ≠ [] →
        Aggregate.pull self (AggState.initial []) fr = .ok (none, aggSDone)) ∧
    (∀ (self : AggregateDef) (fr : FrameF),
        self.groupBy = [] →
        Aggregate.pull self (AggState.initial []) fr =
          .ok (some (Aggregate.defaultRow self fr), aggSDone) ∧
        ∀ fr2 : FrameF, Aggregate.pull self aggSDone fr2 = .ok (none, aggSDone)) ∧
    (∀ (self : AggregateDef) (fr : FrameF) (op : AggOp) (s : Nat),
        (op, s) ∈ self.aggregations →
        (self.aggregations.map Prod.snd ++ self.remember).Nodup →
        Aggregate.defaultRow self fr s = DefaultAggregationOpValue op) ∧
    (∀ (self : AggregateDef) (fr : FrameF) (s : Nat),
        s ∈ self.remember → Aggregate.defaultRow self fr s = TV.null) := by
  refine ⟨?_, ?_, ?_, ?_⟩
  · intro self fr hgb
    unfold Aggregate.pull AggState.initial
    simp only [if_neg (Bool.false_ne_true ∘ id)]
    unfold Aggregate.processAll
    simp only [List.map_nil, List.isEmpty_nil, Bool.true_and]
    rw [if_neg]
    · unfold Aggregate.emit
      simp [aggSDone]
    · simpa using hgb
  · intro self fr hgb
    constructor
    · unfold Aggregate.pull AggState.initial
      simp only [if_neg (Bool.false_ne_true ∘ id)]
      unfold Aggregate.processAll
      simp [hgb, aggSDone]
    · intro fr2
      unfold Aggregate.pull aggSDone
      simp only [if_pos rfl]
      unfold Aggregate.emit
      simp
  · intro self fr op s hmem hnd
    exact Aggregate.defaultRow_agg self fr op s hmem hnd
  · intro self fr s hmem
    exact Aggregate.defaultRow_remember self fr s hmem

/-- Witness for C5: both branches applied at the concrete cursors aggDef1
(group-by present) and aggDef0 (no group-by), both over the empty input,
plus the content of the default row of aggDef0. -/
theorem aggregate_empty_input_witness :
    Aggregate.pull aggDef1 (AggState.initial []) frame0 = .ok (none, aggSDone) ∧
    Aggregate.pull aggDef0 (AggState.initial []) frame0 =
        .ok (some (Aggregate.defaultRow aggDef0 frame0), aggSDone) ∧
    Aggregate.defaultRow aggDef0 frame0 0 = TV.int 0 ∧
    Aggregate.defaultRow aggDef0 frame0 1 = TV.null := by
  refine ⟨?_, ?_, ?_, ?_⟩
  · exact aggregate_empty_input.1 aggDef1 frame0 (by simp [aggDef1])
  · exact (aggregate_empty_input.2.1 aggDef0 frame0 rfl).1
  · exact aggregate_empty_input.2.2.1 aggDef0 frame0 AggOp.count 0 (by simp [aggDef0])
      (by simp [aggDef0])
  · exact aggregate_empty_input.2.2.2 aggDef0 frame0 1 (by simp [aggDef0])

/- ================ Accumulate (operator.cpp lines 2032-2082) ================ -/

/-- Static data of Accumulate: the projected symbols and the
advance-command flag. -/
structure AccumulateDef where
  symbols : List Nat
  advanceCommand : Bool

/-- State of Accumulate::AccumulateCursor: remaining input rows, the cache
of projected rows, the cache iterator and the pulled_all_input_ flag. -/
structure AccState where
  input : List FrameF
  cache : List (List TV)
  it : Nat
  pulledAll : Bool

/-- A fresh AccumulateCursor over the given input rows. -/
def AccState.initial (input : List FrameF) : AccState :=
  { input := input, cache := [], it := 0, pulledAll := false }

/-- Accumulate::AccumulateCursor::Pull (operator.cpp line 2051).  On the
first call the whole input is drained into the cache, each row the
projection of the frame on the operator symbols; with advance_command the
transaction command index advances and every cached value is reconstructed
(`recon` models query::ReconstructTypedValue, whose body is out of scope).
Then rows are streamed from the cache front to back. -/
def Accumulate.pull (self : AccumulateDef) (recon : TV → TV) (s : AccState) (fr : FrameF) :
    Option FrameF × AccState :=
  let s :=
    if s.pulledAll then s
    else
      let cache0 := s.input.map (fun f => self.symbols.map f)
      let cache1 := if self.advanceCommand then cache0.map (List.map recon) else cache0
      { input := [], cache := cache1, it := 0, pulledAll := true }
  match s.cache[s.it]? with
  | none => (none, s)
  | some row => (some (writeRow self.symbols row fr), { s with it := s.it + 1 })

/-- Drain an AccumulateCursor, collecting the produced frames in order. -/
def Accumulate.run (self : AccumulateDef) (recon : TV → TV) :
    Nat → AccState → FrameF → List FrameF
  | 0, _, _ => []
  | fuel + 1, s, fr =>
      match Accumulate.pull self recon s fr with
      | (none, _) => []
      | (some f2, s2) => f2 :: Accumulate.run self recon fuel s2 f2

/- ================ Synchronize (operator.cpp lines 3148-3277) ================ -/

/-- Static data of Synchronize: the advance-command flag.  The pull-remote
child is modelled by the list of rows it will produce. -/
structure SynchronizeDef where
  advanceCommand : Bool

/-- State of SynchronizeCursor: the initial_pull_done_ flag, the
local_frames_ buffer, the remaining local-input rows and the remaining
pull-remote rows.  A frame is its element vector (frame.elems()). -/
structure SyncState where
  initialPullDone : Bool
  localFrames : List (List TV)
  input : List (List TV)
  remote : List (List TV)

/-- A fresh SynchronizeCursor. -/
def SyncState.initial (input remote : List (List TV)) : SyncState :=
  { initialPullDone := false, localFrames := [], input := input, remote := remote }

/-- SynchronizeCursor::Pull (operator.cpp line 3158).  InitialPull drains
the local input into local_frames_ in production order (the remote
accumulation futures, the command advance and the update apply-all barrier
are cluster-wide effects with no local-state counterpart).  Streaming then
takes local_frames_.back() and shrinks the buffer by one — the last
buffered row first — reconstructing each value when advance_command is
set, and falls back to the pull-remote rows once the buffer is empty. -/
def Synchronize.pull (self : SynchronizeDef) (recon : TV → TV) (s : SyncState) :
    Option (List TV) × SyncState :=
  let s :=
    if s.initialPullDone then s
    else { s with initialPullDone := true, localFrames := s.input, input := [] }
  match s.localFrames.getLast? with
  | some result =>
      let out := if self.advanceCommand then result.map recon else result
      (some out, { s with localFrames := s.localFrames.dropLast })
  | none =>
      match s.remote with
      | r :: rest => (some r, { s with remote := rest })
      | [] => (none, s)

/-- Drain a SynchronizeCursor, collecting the produced frames in order. -/
def Synchronize.run (self : SynchronizeDef) (recon : TV → TV) :
    Nat → SyncState → List (List TV)
  | 0, _ => []
  | fuel + 1, s =>
      match Synchronize.pull self recon s with
      | (none, _) => []
      | (some f, s2) => f :: Synchronize.run self recon fuel s2

/- ================= Ordering lemmas for Accumulate/Synchronize ================= -/

theorem writeRow_not_mem (syms : List Nat) (vals : List TV) (f : FrameF) (i : Nat)
    (h : i ∉ syms) : writeRow syms vals f i = f i := by
  induction syms generalizing vals f with
  | nil => rfl
  | cons a t ih =>
      cases vals with
      | nil => rfl
      | cons v vs =>
          simp only [List.mem_cons, not_or] at h
          simp only [writeRow, List.zip_cons_cons, List.foldl_cons]
          have htail := ih vs (frameSet f a v) h.2
          simp only [writeRow] at htail
          rw [htail, frameSet_other _ _ _ _ h.1]

/-- Projecting a frame on the symbols just written recovers the written
row, provided the symbols are distinct and the row has matching width. -/
theorem map_writeRow (syms : List Nat) (vals : List TV) (f : FrameF)
    (hnd : syms.Nodup) (hlen : vals.length = syms.length) :
    syms.map (writeRow syms vals f) = vals := by
  induction syms generalizing vals f with
  | nil =>
      cases vals with
      | nil => rfl
      | cons v vs => simp at hlen
  | cons a t ih =>
      cases vals with
      | nil => simp at hlen
      | cons v vs =>
          simp only [List.nodup_cons] at hnd
          simp only [List.length_cons, Nat.succ_inj] at hlen
          have hw : writeRow (a :: t) (v :: vs) f = writeRow t vs (frameSet f a v) := by
            simp only [writeRow, List.zip_cons_cons, List.foldl_cons]
          rw [hw, List.map_cons]
          rw [writeRow_not_mem t vs (frameSet f a v) a hnd.1, frameSet_same]
          rw [ih vs (frameSet f a v) hnd.2 hlen]

theorem Accumulate.pull_done (self : AccumulateDef) (recon : TV → TV)
    (cch : List (List TV)) (k : Nat) (fr : FrameF) :
    Accumulate.pull self recon { input := [], cache := cch, it := k, pulledAll := true } fr =
      match (cch[k]?) with
      | none => (none, { input := [], cache := cch, it := k, pulledAll := true })
      | some row =>
          (some (writeRow self.symbols row fr),
            { input := [], cache := cch, it := k + 1, pulledAll := true }) := by
  simp only [Accumulate.pull, if_true]

theorem Accumulate.run_stream (self : AccumulateDef) (recon : TV → TV)
    (cch : List (List TV)) (k : Nat) (fr : FrameF) (fuel : Nat)
    (hnd : self.symbols.Nodup)
    (hlen : ∀ r ∈ cch, r.length = self.symbols.length)
    (hfuel : cch.length - k ≤ fuel) :
    (Accumulate.run self recon fuel
        { input := [], cache := cch, it := k, pulledAll := true } fr).map
      (fun f => self.symbols.map f) = cch.drop k := by
  induction fuel generalizing k fr with
  | zero =>
      have hle : cch.length ≤ k := by omega
      simp [Accumulate.run, List.drop_eq_nil_of_le hle]
  | succ fuel ih =>
      simp only [Accumulate.run]
      rw [Accumulate.pull_done]
      cases hg : (cch[k]?) with
      | none =>
          have hle : cch.length ≤ k := by
            by_contra hlt
            push_neg at hlt
            rw [List.getElem?_eq_getElem hlt] at hg
            simp at hg
          simp only [hg, List.map_nil]
          rw [List.drop_eq_nil_of_le hle]
      | some row =>
          have hk : k < cch.length := (List.getElem?_eq_some.mp hg).1
          have hrow : cch[k] = row := by
            obtain ⟨w, hw⟩ := List.getElem?_eq_some.mp hg
            exact hw
          have hrmem : row ∈ cch := List.getElem?_mem hg
          simp only [hg, List.map_cons]
          rw [List.drop_eq_getElem_cons hk, hrow,
            map_writeRow self.symbols row fr hnd (hlen row hrmem),
            ih (k + 1) (writeRow self.symbols row fr) (by omega)]

theorem Synchronize.run_done_empty (self : SynchronizeDef) (recon : TV → TV)
    (remote : List (List TV)) (fuel : Nat) (hfuel : remote.length ≤ fuel) :
    Synchronize.run self recon fuel
        { initialPullDone := true, localFrames := [], input := [], remote := remote } =
      remote := by
  induction fuel generalizing remote with
  | zero =>
      have : remote = [] := List.length_eq_zero.mp (Nat.le_zero.mp hfuel)
      simp [this, Synchronize.run]
  | succ fuel ih =>
      cases remote with
      | nil => simp [Synchronize.run, Synchronize.pull]
      | cons r rest =>
          simp only [Synchronize.run, Synchronize.pull, if_true, List.getLast?_nil]
          simp only [List.length_cons] at hfuel
          exact congrArg (r :: ·) (ih rest (by omega))

theorem Synchronize.run_done (self : SynchronizeDef) (recon : TV → TV)
    (lf remote : List (List TV)) (fuel : Nat)
    (hfuel : lf.length + remote.length ≤ fuel) :
    Synchronize.run self recon fuel
        { initialPullDone := true, localFrames := lf, input := [], remote := remote } =
      lf.reverse.map (fun r => if self.advanceCommand then r.map recon else r)
        ++ remote := by
  induction fuel generalizing lf with
  | zero =>
      have h1 : lf = [] := by
        have := Nat.le_zero.mp hfuel
        exact List.length_eq_zero.mp (by omega)
      have h2 : remote = [] := by
        have := Nat.le_zero.mp hfuel
        exact List.length_eq_zero.mp (by omega)
      simp [h1, h2, Synchronize.run]
  | succ fuel ih =>
      rcases List.eq_nil_or_concat lf with hnil | ⟨l2, a, hcat⟩
      · subst hnil
        simp only [List.reverse_nil, List.map_nil, List.nil_append]
        exact Synchronize.run_done_empty self recon remote (fuel + 1) (by simpa using hfuel)
      · subst hcat
        rw [List.concat_eq_append] at hfuel ⊢
        simp only [Synchronize.run, Synchronize.pull, if_true, List.getLast?_concat]
        have hdl : (l2 ++ [a]).dropLast = l2 := by simp
        rw [hdl]
        have hlen : l2.length + remote.length ≤ fuel := by
          simp only [List.length_append, List.length_cons, List.length_nil] at hfuel
          omega
        rw [ih l2 hlen]
        simp [List.reverse_append]

/-- The first pull of a fresh Accumulate cursor behaves as the pull of the
cursor that has already drained its input into the cache. -/
theorem Accumulate.pull_initial (self : AccumulateDef) (recon : TV → TV)
    (input : List FrameF) (fr : FrameF) :
    Accumulate.pull self recon (AccState.initial input) fr =
      Accumulate.pull self recon
        { input := [],
          cache :=
            if self.advanceCommand
            then (input.map (fun f => self.symbols.map f)).map (List.map recon)
            else input.map (fun f => self.symbols.map f),
          it := 0, pulledAll := true } fr := by
  simp [Accumulate.pull, AccState.initial]

theorem Accumulate.run_from_initial (self : AccumulateDef) (recon : TV → TV)
    (input : List FrameF) (fr : FrameF) (fuel : Nat) :
    Accumulate.run self recon fuel (AccState.initial input) fr =
      Accumulate.run self recon fuel
        { input := [],
          cache :=
            if self.advanceCommand
            then (input.map (fun f => self.symbols.map f)).map (List.map recon)
            else input.map (fun f => self.symbols.map f),
          it := 0, pulledAll := true } fr := by
  cases fuel with
  | zero => rfl
  | succ fuel => simp only [Accumulate.run, Accumulate.pull_initial]

theorem Synchronize.sync_run_from_initial (self : SynchronizeDef) (recon : TV → TV)
    (input remote : List (List TV)) (fuel : Nat) :
    Synchronize.run self recon fuel (SyncState.initial input remote) =
      Synchronize.run self recon fuel
        { initialPullDone := true, localFrames := input, input := [], remote := remote } := by
  cases fuel with
  | zero => rfl
  | succ fuel =>
      simp [Synchronize.run, Synchronize.pull, SyncState.initial]

/-- Claim C1 counterexample: a Synchronize cursor whose local input
produced the rows [int 1] then [int 2] (and with no pull-remote) streams
them back as [int 2] then [int 1] — not in the order its input produced
them, as the claim states. -/
theorem synchronize_local_order_cex :
    Synchronize.run { advanceCommand := false } (fun v => v) 3
        (SyncState.initial [[TV.int 1], [TV.int 2]] []) = [[TV.int 2], [TV.int 1]] ∧
    Synchronize.run { advanceCommand := false } (fun v => v) 3
        (SyncState.initial [[TV.int 1], [TV.int 2]] []) ≠ [[TV.int 1], [TV.int 2]] := by
  have h1 : Synchronize.run { advanceCommand := false } (fun v => v) 3
      (SyncState.initial [[TV.int 1], [TV.int 2]] []) = [[TV.int 2], [TV.int 1]] := rfl
  refine ⟨h1, ?_⟩
  rw [h1]
  decide

/-- Claim C1 (amended): within a single worker Accumulate streams its
buffered rows in exactly the order its input produced them (projections on
the operator symbols coincide row by row, reconstructed when
advance_command is set); Synchronize, after its barrier phase, streams the
rows it buffered from its local input in reverse order of production, and
only then the rows from pull-remote. -/
theorem cursor_output_order :
    (∀ (self : AccumulateDef) (recon : TV → TV) (input : List FrameF)
        (fr : FrameF) (fuel : Nat),
        self.symbols.Nodup → input.length ≤ fuel →
        (Accumulate.run self recon fuel (AccState.initial input) fr).map
            (fun f => self.symbols.map f) =
          if self.advanceCommand
          then (input.map (fun f => self.symbols.map f)).map (List.map recon)
          else input.map (fun f => self.symbols.map f)) ∧
    (∀ (self : SynchronizeDef) (recon : TV → TV) (input remote : List (List TV))
        (fuel : Nat),
        input.length + remote.length ≤ fuel →
        Synchronize.run self recon fuel (SyncState.initial input remote) =
          input.reverse.map (fun r => if self.advanceCommand then r.map recon else r)
            ++ remote) := by
  constructor
  · intro self recon input fr fuel hnd hfuel
    rw [Accumulate.run_from_initial]
    have hlen : ∀ r ∈ (if self.advanceCommand
        then (input.map (fun f => self.symbols.map f)).map (List.map recon)
        else input.map (fun f => self.symbols.map f)),
        r.length = self.symbols.length := by
      intro r hr
      by_cases hadv : self.advanceCommand = true
      · rw [if_pos hadv] at hr
        simp only [List.mem_map] at hr
        obtain ⟨r0, ⟨f0, hf0, hr0⟩, hrr⟩ := hr
        subst hrr
        subst hr0
        simp
      · rw [if_neg hadv] at hr
        simp only [List.mem_map] at hr
        obtain ⟨f0, hf0, hrr⟩ := hr
        subst hrr
        simp
    have hlc : (if self.advanceCommand
        then (input.map (fun f => self.symbols.map f)).map (List.map recon)
        else input.map (fun f => self.symbols.map f)).length = input.length := by
      by_cases hadv : self.advanceCommand <;> simp [hadv]
    have := Accumulate.run_stream self recon
      (if self.advanceCommand
        then (input.map (fun f => self.symbols.map f)).map (List.map recon)
        else input.map (fun f => self.symbols.map f)) 0 fr fuel hnd hlen
      (by rw [hlc]; omega)
    simpa using this
  · intro self recon input remote fuel hfuel
    rw [Synchronize.sync_run_from_initial]
    exact Synchronize.run_done self recon input remote fuel hfuel

/-- Witness for C1 (amended claim): the ordering facts applied at a
two-row local input with one remote row. -/
theorem cursor_output_order_witness :
    (Accumulate.run { symbols := [0], advanceCommand := false } (fun v => v) 2
        (AccState.initial [fun _ => TV.int 1, fun _ => TV.int 2]) frame0).map
        (fun f => [0].map f) =
      [[TV.int 1], [TV.int 2]] ∧
    Synchronize.run { advanceCommand := false } (fun v => v) 3
        (SyncState.initial [[TV.int 1], [TV.int 2]] [[TV.int 9]]) =
      [[TV.int 2], [TV.int 1], [TV.int 9]] := by
  constructor
  · exact cursor_output_order.1 { symbols := [0], advanceCommand := false } (fun v => v)
      [fun _ => TV.int 1, fun _ => TV.int 2] frame0 2 (by decide) (by decide)
  · exact cursor_output_order.2 { advanceCommand := false } (fun v => v)
      [[TV.int 1], [TV.int 2]] [[TV.int 9]] 3 (by decide)

/- ================== Merge (operator.cpp lines 2626-2701) ================== -/

/- MergeCursor never inspects the frame itself; its children do.  Rows are
therefore an arbitrary type.  The merge_match cursor, reset for each input
row, is modelled by the list of rows it produces for that input row
(matchF); the merge_create cursor by the single row it produces (createF).
createPulls counts how often merge_create_cursor_ was pulled. -/

/-- State of Merge::MergeCursor: the remaining input rows, the remaining
match rows of the current input row, the pull_input_ flag, and an
instrumentation counter of merge-create pulls. -/
structure MergeState (α : Type) where
  inp : List α
  cur : List α
  pullInput : Bool
  createPulls : Nat

/-- The pull_input_ branch of Merge::MergeCursor::Pull (operator.cpp
line 2661): pull the input; on exhaustion we are done; otherwise reset the
match and create cursors and pull the match cursor, falling back to one
create pull when the match plan yields nothing. -/
def Merge.inputStep {α : Type} (matchF : α → List α) (createF : α → α)
    (inp : List α) (createPulls : Nat) : Option α × MergeState α :=
  match inp with
  | [] => (none, { inp := [], cur := [], pullInput := true, createPulls := createPulls })
  | r :: rest =>
      match matchF r with
      | m :: ms =>
          (some m, { inp := rest, cur := ms, pullInput := false, createPulls := createPulls })
      | [] =>
          (some (createF r),
            { inp := rest, cur := [], pullInput := true, createPulls := createPulls + 1 })

/-- Merge::MergeCursor::Pull (operator.cpp line 2660).  When pull_input_
is unset the match cursor keeps streaming; once it is exhausted the cursor
flips pull_input_ back on and retries, which is exactly the input step. -/
def Merge.pull {α : Type} (matchF : α → List α) (createF : α → α)
    (s : MergeState α) : Option α × MergeState α :=
  if s.pullInput then Merge.inputStep matchF createF s.inp s.createPulls
  else
    match s.cur with
    | m :: ms => (some m, { s with cur := ms })
    | [] => Merge.inputStep matchF createF s.inp s.createPulls

/-- Drain a MergeCursor: the produced rows in order, and the final
merge-create pull count. -/
def Merge.run {α : Type} (matchF : α → List α) (createF : α → α) :
    Nat → MergeState α → List α × Nat
  | 0, s => ([], s.createPulls)
  | fuel + 1, s =>
      match Merge.pull matchF createF s with
      | (none, s2) => ([], s2.createPulls)
      | (some r, s2) =>
          let rest := Merge.run matchF createF fuel s2
          (r :: rest.1, rest.2)

/-- The per-input-row output of Merge: the match rows when there are any,
else the single create row. -/
def Merge.rowsFor {α : Type} (matchF : α → List α) (createF : α → α) (r : α) : List α :=
  match matchF r with
  | [] => [createF r]
  | ms => ms

/-- Enough pulls to drain Merge over the given input. -/
def Merge.fuelFor {α : Type} (matchF : α → List α) (inputs : List α) : Nat :=
  (inputs.map (fun r => 1 + (matchF r).length)).sum + 1

theorem Merge.run_flip {α : Type} (matchF : α → List α) (createF : α → α)
    (fuel : Nat) (inp : List α) (cp : Nat) :
    Merge.run matchF createF fuel { inp := inp, cur := [], pullInput := true, createPulls := cp } =
      Merge.run matchF createF fuel
        { inp := inp, cur := [], pullInput := false, createPulls := cp } := by
  cases fuel with
  | zero => rfl
  | succ fuel => simp [Merge.run, Merge.pull]

theorem Merge.run_drain {α : Type} (matchF : α → List α) (createF : α → α)
    (fuel : Nat) (ms inputs : List α) (cp : Nat)
    (hfuel : ms.length + Merge.fuelFor matchF inputs ≤ fuel) :
    Merge.run matchF createF fuel
        { inp := inputs, cur := ms, pullInput := false, createPulls := cp } =
      (ms ++ inputs.flatMap (Merge.rowsFor matchF createF),
        cp + inputs.countP (fun r => (matchF r).isEmpty)) := by
  induction fuel generalizing ms inputs cp with
  | zero =>
      exfalso
      have : 1 ≤ Merge.fuelFor matchF inputs := by simp [Merge.fuelFor]
      omega
  | succ fuel ih =>
      cases ms with
      | cons m ms2 =>
          simp only [Merge.run, Merge.pull, if_neg (by simp : ¬(false = true))]
          simp only [List.length_cons] at hfuel
          rw [ih ms2 inputs cp (by omega)]
          simp
      | nil =>
          simp only [Merge.run, Merge.pull, if_neg (by simp : ¬(false = true))]
          cases inputs with
          | nil => simp [Merge.inputStep]
          | cons r rest =>
              cases hm : matchF r with
              | nil =>
                  simp only [Merge.inputStep, hm]
                  rw [Merge.run_flip]
                  have hfl : Merge.fuelFor matchF rest ≤ fuel := by
                    simp only [Merge.fuelFor, List.map_cons, List.sum_cons, hm] at hfuel ⊢
                    omega
                  rw [ih [] rest (cp + 1) (by simpa using hfl)]
                  simp [Merge.rowsFor, hm, List.countP_cons]
                  omega
              | cons m ms2 =>
                  simp only [Merge.inputStep, hm]
                  have hfl : ms2.length + Merge.fuelFor matchF rest ≤ fuel := by
                    simp only [Merge.fuelFor, List.map_cons, List.sum_cons, hm,
                      List.length_cons] at hfuel ⊢
                    omega
                  rw [ih ms2 rest cp hfl]
                  simp [Merge.rowsFor, hm, List.countP_cons]

/-- Claim C6: for every input row of Merge, the rows of the match plan are
all forwarded when there is at least one, and the create plan is not
pulled for that row; when the match plan yields no row the create plan is
pulled exactly once and its row forwarded.  Hence the final create-pull
count equals the number of match-empty input rows and every input row
contributes at least one output row. -/
theorem merge_match_else_create {α : Type} (matchF : α → List α) (createF : α → α)
    (inputs : List α) (fuel : Nat) (hfuel : Merge.fuelFor matchF inputs ≤ fuel) :
    Merge.run matchF createF fuel
        { inp := inputs, cur := [], pullInput := true, createPulls := 0 } =
      (inputs.flatMap (Merge.rowsFor matchF createF),
        inputs.countP (fun r => (matchF r).isEmpty)) ∧
    inputs.length ≤ (inputs.flatMap (Merge.rowsFor matchF createF)).length ∧
    ∀ r ∈ inputs,
      (matchF r ≠ [] → Merge.rowsFor matchF createF r = matchF r) ∧
      (matchF r = [] → Merge.rowsFor matchF createF r = [createF r]) := by
  refine ⟨?_, ?_, ?_⟩
  · rw [Merge.run_flip]
    have := Merge.run_drain matchF createF fuel [] inputs 0 (by simpa using hfuel)
    simpa using this
  · clear hfuel fuel
    induction inputs with
    | nil => simp
    | cons r rest ih =>
        simp only [List.flatMap_cons, List.length_append, List.length_cons]
        have hr : 1 ≤ (Merge.rowsFor matchF createF r).length := by
          unfold Merge.rowsFor
          cases matchF r <;> simp
        omega
  · intro r _
    constructor
    · intro hne
      unfold Merge.rowsFor
      cases hm : matchF r with
      | nil => exact absurd hm hne
      | cons m ms => rfl
    · intro heq
      unfold Merge.rowsFor
      rw [heq]

/-- Witness for C6: the merge semantics at a concrete input where row 1
has two match rows and row 2 has none. -/
theorem merge_match_else_create_witness :
    Merge.run (fun n => if n = 1 then [10, 11] else []) (fun n => n + 100) 6
        { inp := [1, 2], cur := [], pullInput := true, createPulls := 0 } =
      ([10, 11, 102], 1) := by
  have h := (merge_match_else_create (fun n : Nat => if n = 1 then [10, 11] else [])
    (fun n => n + 100) [1, 2] 6 (by decide)).1
  rw [h]
  decide

/- ============== Skip and Limit (operator.cpp lines 2368-2471) ============== -/

/- Skip and Limit never inspect their rows, so rows are an arbitrary type.
The bound expression is modelled by the TypedValue it evaluates to
(SKIP/LIMIT expressions may not contain identifiers); `evals` counts how
often the expression was evaluated. -/

/-- State of Skip::SkipCursor: remaining input rows, to_skip_ (-1 until
first evaluation), skipped_, and the evaluation counter. -/
structure SkipState (α : Type) where
  input : List α
  toSkip : Int
  skipped : Int
  evals : Nat
  deriving DecidableEq, Repr

/-- The input-draining loop of Skip::SkipCursor::Pull (operator.cpp
line 2390): on the first successful input pull the skip expression is
evaluated (int-typed, non-negative, else QueryRuntimeException); rows are
consumed until skipped_ reaches to_skip_. -/
def Skip.loop {α : Type} (bound : TV) :
    List α → Int → Int → Nat → Except Err (Option α × SkipState α)
  | [], toSkip, skipped, evals => .ok (none, ⟨[], toSkip, skipped, evals⟩)
  | r :: rest, toSkip, skipped, evals =>
      match
        (if toSkip = -1 then
          match bound with
          | .int n => if n < 0 then Except.error Err.skipNegative else .ok (n, evals + 1)
          | _ => Except.error Err.skipMustBeInt
        else .ok (toSkip, evals)) with
      | .error e => .error e
      | .ok (ts, ev) =>
          if skipped < ts then Skip.loop bound rest ts (skipped + 1) ev
          else .ok (some r, ⟨rest, ts, skipped + 1, ev⟩)

/-- Skip::SkipCursor::Pull over the state record. -/
def Skip.pull {α : Type} (bound : TV) (s : SkipState α) :
    Except Err (Option α × SkipState α) :=
  Skip.loop bound s.input s.toSkip s.skipped s.evals

/-- State of Limit::LimitCursor: remaining input rows, limit_ (-1 until
first evaluation), pulled_, and the evaluation counter. -/
structure LimitState (α : Type) where
  input : List α
  limit : Int
  pulled : Int
  evals : Nat
  deriving DecidableEq, Repr

/-- Limit::LimitCursor::Pull (operator.cpp line 2443): the limit
expression is evaluated before the first input pull (it might be 0);
pulled_ is incremented on every call and the input is pulled only while
pulled_ has not reached limit_. -/
def Limit.pull {α : Type} (bound : TV) (s : LimitState α) :
    Except Err (Option α × LimitState α) :=
  match
    (if s.limit = -1 then
      match bound with
      | .int n => if n < 0 then Except.error Err.limitNegative else .ok (n, s.evals + 1)
      | _ => Except.error Err.limitMustBeInt
    else .ok (s.limit, s.evals)) with
  | .error e => .error e
  | .ok (lim, ev) =>
      if lim ≤ s.pulled then
        .ok (none, { s with limit := lim, pulled := s.pulled + 1, evals := ev })
      else
        match s.input with
        | [] => .ok (none, { s with input := [], limit := lim, pulled := s.pulled + 1, evals := ev })
        | r :: rest =>
            .ok (some r, { s with input := rest, limit := lim, pulled := s.pulled + 1, evals := ev })

/-- Once to_skip_ is set, the skip loop never re-evaluates the bound: it
cannot fail and it preserves to_skip_ and the evaluation count. -/
theorem Skip.loop_no_reeval {α : Type} (bound : TV) (input : List α)
    (toSkip skipped : Int) (evals : Nat) (h : toSkip ≠ -1) :
    ∃ res rest skipped2,
      Skip.loop bound input toSkip skipped evals = .ok (res, ⟨rest, toSkip, skipped2, evals⟩) := by
  induction input generalizing skipped with
  | nil => exact ⟨none, [], skipped, rfl⟩
  | cons r rest ih =>
      simp only [Skip.loop, if_neg h]
      by_cases hlt : skipped < toSkip
      · rw [if_pos hlt]
        exact ih (skipped + 1)
      · rw [if_neg hlt]
        exact ⟨some r, rest, skipped + 1, rfl⟩

/-- Claim C7 counterexample: a Skip cursor over an EMPTY input with the
bound expression evaluating to −1.  Its first pull returns Exhausted with
the bound never evaluated (evaluation count 0 in the returned state) and
no QueryError is raised — the claim says the bound is evaluated exactly
once on the first pull and a negative bound makes the pull fail. -/
theorem skip_bound_not_evaluated_cex :
    Skip.pull (TV.int (-1)) (⟨[], -1, 0, 0⟩ : SkipState Nat) =
      .ok (none, (⟨[], -1, 0, 0⟩ : SkipState Nat)) ∧
    (∀ e : Err, Skip.pull (TV.int (-1)) (⟨[], -1, 0, 0⟩ : SkipState Nat) ≠ .error e) := by
  refine ⟨rfl, ?_⟩
  intro e h
  rw [show Skip.pull (TV.int (-1)) (⟨[], -1, 0, 0⟩ : SkipState Nat) =
    .ok (none, (⟨[], -1, 0, 0⟩ : SkipState Nat)) from rfl] at h
  exact Except.noConfusion h

/-- Claim C7 (amended): Limit evaluates its bound exactly once, on the
first pull, before pulling input; Skip evaluates its bound exactly once,
on the first pull that obtains an input row — with an empty input it is
never evaluated.  Once evaluated the count is kept for the rest of the
iteration; an evaluated negative integer bound fails with QueryError, and
a non-integer bound fails with QueryError. -/
theorem skip_limit_bound_evaluation :
    (∀ (α : Type) (s : LimitState α) (bound : TV), s.limit = -1 →
        ((∀ n : Int, bound ≠ .int n) → Limit.pull bound s = .error .limitMustBeInt) ∧
        (∀ n : Int, bound = .int n → n < 0 → Limit.pull bound s = .error .limitNegative) ∧
        (∀ n : Int, bound = .int n → 0 ≤ n →
          ∃ res s2, Limit.pull bound s = .ok (res, s2) ∧
            s2.evals = s.evals + 1 ∧ s2.limit = n)) ∧
    (∀ (α : Type) (s : LimitState α) (bound : TV), s.limit ≠ -1 →
        ∃ res s2, Limit.pull bound s = .ok (res, s2) ∧
          s2.evals = s.evals ∧ s2.limit = s.limit) ∧
    (∀ (α : Type) (r : α) (rest : List α) (skipped : Int) (evals : Nat) (bound : TV),
        ((∀ n : Int, bound ≠ .int n) →
          Skip.loop bound (r :: rest) (-1) skipped evals = .error .skipMustBeInt) ∧
        (∀ n : Int, bound = .int n → n < 0 →
          Skip.loop bound (r :: rest) (-1) skipped evals = .error .skipNegative) ∧
        (∀ n : Int, bound = .int n → 0 ≤ n →
          ∃ res rest2 skipped2,
            Skip.loop bound (r :: rest) (-1) skipped evals =
              .ok (res, ⟨rest2, n, skipped2, evals + 1⟩))) ∧
    (∀ (α : Type) (s : SkipState α) (bound : TV), 0 ≤ s.toSkip →
        ∃ res rest2 skipped2,
          Skip.pull bound s = .ok (res, ⟨rest2, s.toSkip, skipped2, s.evals⟩)) ∧
    (∀ (α : Type) (toSkip skipped : Int) (evals : Nat) (bound : TV),
        Skip.loop bound ([] : List α) toSkip skipped evals =
          .ok (none, ⟨[], toSkip, skipped, evals⟩)) := by
  refine ⟨?_, ?_, ?_, ?_, ?_⟩
  · intro α s bound hlim
    refine ⟨?_, ?_, ?_⟩
    · intro hni
      unfold Limit.pull
      rw [if_pos hlim]
      cases bound with
      | int n => exact absurd rfl (hni n)
      | null => rfl
      | bool b => rfl
      | str v => rfl
      | vertex v => rfl
      | edge e => rfl
      | list l => rfl
      | map m => rfl
    · intro n hb hneg
      unfold Limit.pull
      rw [if_pos hlim, hb]
      simp [hneg]
    · intro n hb hpos
      unfold Limit.pull
      rw [if_pos hlim, hb]
      simp only [if_neg (by omega : ¬ n < 0)]
      by_cases hle : n ≤ s.pulled
      · rw [if_pos hle]
        exact ⟨none, _, rfl, rfl, rfl⟩
      · rw [if_neg hle]
        cases s.input with
        | nil => exact ⟨none, _, rfl, rfl, rfl⟩
        | cons r rest => exact ⟨some r, _, rfl, rfl, rfl⟩
  · intro α s bound hlim
    unfold Limit.pull
    rw [if_neg hlim]
    dsimp only
    by_cases hle : s.limit ≤ s.pulled
    · rw [if_pos hle]
      exact ⟨none, _, rfl, rfl, rfl⟩
    · rw [if_neg hle]
      cases s.input with
      | nil => exact ⟨none, _, rfl, rfl, rfl⟩
      | cons r rest => exact ⟨some r, _, rfl, rfl, rfl⟩
  · intro α r rest skipped evals bound
    refine ⟨?_, ?_, ?_⟩
    · intro hni
      simp only [Skip.loop, if_pos rfl]
      cases bound with
      | int n => exact absurd rfl (hni n)
      | null => rfl
      | bool b => rfl
      | str v => rfl
      | vertex v => rfl
      | edge e => rfl
      | list l => rfl
      | map m => rfl
    · intro n hb hneg
      simp only [Skip.loop, if_pos rfl, hb]
      simp [hneg]
    · intro n hb hpos
      simp only [Skip.loop, if_pos rfl, hb]
      simp only [if_neg (by omega : ¬ n < 0), if_true]
      by_cases hlt : skipped < n
      · rw [if_pos hlt]
        exact Skip.loop_no_reeval (TV.int n) rest n (skipped + 1) (evals + 1) (by omega)
      · rw [if_neg hlt]
        exact ⟨some r, rest, skipped + 1, rfl⟩
  · intro α s bound hts
    exact Skip.loop_no_reeval bound s.input s.toSkip s.skipped s.evals (by omega)
  · intro α toSkip skipped evals bound
    rfl

/-- Witness for C7 (amended claim): the evaluation discipline at concrete
cursors — Limit with a negative, a non-integer and a valid bound, and
Skip over a one-row input. -/
theorem skip_limit_bound_evaluation_witness :
    Limit.pull (TV.int (-1)) (⟨[5], -1, 0, 0⟩ : LimitState Nat) = .error .limitNegative ∧
    Limit.pull TV.null (⟨[5], -1, 0, 0⟩ : LimitState Nat) = .error .limitMustBeInt ∧
    (∃ res s2, Limit.pull (TV.int 1) (⟨[5], -1, 0, 0⟩ : LimitState Nat) = .ok (res, s2) ∧
      s2.evals = 0 + 1 ∧ s2.limit = 1) ∧
    Skip.loop (TV.int (-1)) [5] (-1) 0 0 = .error Err.skipNegative ∧
    (∃ res rest2 skipped2, Skip.loop (TV.int 0) [5] (-1) 0 0 =
      .ok (res, (⟨rest2, 0, skipped2, 0 + 1⟩ : SkipState Nat))) := by
  refine ⟨?_, ?_, ?_, ?_, ?_⟩
  · exact (skip_limit_bound_evaluation.1 Nat ⟨[5], -1, 0, 0⟩ (TV.int (-1)) rfl).2.1
      (-1) rfl (by decide)
  · exact (skip_limit_bound_evaluation.1 Nat ⟨[5], -1, 0, 0⟩ TV.null rfl).1
      (fun n h => TV.noConfusion h)
  · exact (skip_limit_bound_evaluation.1 Nat ⟨[5], -1, 0, 0⟩ (TV.int 1) rfl).2.2
      1 rfl (by decide)
  · exact (skip_limit_bound_evaluation.2.2.1 Nat 5 [] 0 0 (TV.int (-1))).2.1
      (-1) rfl (by decide)
  · exact (skip_limit_bound_evaluation.2.2.1 Nat 5 [] 0 0 (TV.int 0)).2.2
      0 rfl (by decide)

/- ================ Distinct (operator.cpp lines 2830-2871) ================ -/

/-- seen_rows_ membership: the hash set uses TypedValueVectorEqual, so a
row is already seen when some kept row compares rowEqual to it. -/
def seenContains (seen : List (List TV)) (row : List TV) : Bool :=
  seen.any (fun r0 => rowEqual r0 row)

/-- The drain of Distinct::DistinctCursor::Pull (operator.cpp line 2856):
keep pulling the input; project the frame on the value symbols; a row
whose projection was already inserted into seen_rows_ is skipped, a fresh
one is inserted and its frame is produced. -/
def Distinct.run (symbols : List Nat) :
    List FrameF → List (List TV) → List FrameF
  | [], _ => []
  | f :: rest, seen =>
      let row := symbols.map f
      if seenContains seen row then Distinct.run symbols rest seen
      else f :: Distinct.run symbols rest (row :: seen)

theorem TV.boolEqual_refl (a : TV) : TV.boolEqual a a = true := by
  cases a <;> simp [TV.boolEqual]

theorem rowEqual_refl (l : List TV) : rowEqual l l = true := by
  simp only [rowEqual, beq_self_eq_true, Bool.true_and, List.all_eq_true]
  intro p hp
  have : p.1 = p.2 := by
    induction l with
    | nil => simp at hp
    | cons a t ih =>
        simp only [List.zip_cons_cons, List.mem_cons] at hp
        rcases hp with h | h
        · rw [h]
        · exact ih h
  rw [this]
  exact TV.boolEqual_refl p.2

theorem Distinct.run_fresh_pairwise (symbols : List Nat) (P : List FrameF) :
    ∀ seen : List (List TV),
      List.Pairwise (fun a b => rowEqual a b = false)
          ((Distinct.run symbols P seen).map (fun f => symbols.map f)) ∧
      ∀ f ∈ Distinct.run symbols P seen, seenContains seen (symbols.map f) = false := by
  induction P with
  | nil => exact fun seen => ⟨List.Pairwise.nil, by simp [Distinct.run]⟩
  | cons f rest ih =>
      intro seen
      cases hc : seenContains seen (symbols.map f) with
      | true =>
          have hrw : Distinct.run symbols (f :: rest) seen = Distinct.run symbols rest seen := by
            simp [Distinct.run, hc]
          rw [hrw]
          exact ih seen
      | false =>
          have hrw : Distinct.run symbols (f :: rest) seen =
              f :: Distinct.run symbols rest (symbols.map f :: seen) := by
            simp [Distinct.run, hc]
          rw [hrw]
          obtain ⟨ihp, ihm⟩ := ih (symbols.map f :: seen)
          have hstep : ∀ g ∈ Distinct.run symbols rest (symbols.map f :: seen),
              seenContains seen (symbols.map g) = false ∧
                rowEqual (symbols.map f) (symbols.map g) = false := by
            intro g hg
            have hgm := ihm g hg
            simp only [seenContains, List.any_cons, Bool.or_eq_false_iff] at hgm
            exact ⟨by simpa [seenContains] using hgm.2, hgm.1⟩
          refine ⟨?_, ?_⟩
          · simp only [List.map_cons]
            refine List.Pairwise.cons ?_ ihp
            intro b hb
            obtain ⟨g, hg, rfl⟩ := List.mem_map.mp hb
            exact (hstep g hg).2
          · intro g hg
            rcases List.mem_cons.mp hg with heq | hg2
            · subst heq
              exact hc
            · exact (hstep g hg2).1

theorem Distinct.run_fixed (symbols : List Nat) (out : List FrameF) :
    ∀ seen : List (List TV),
      (∀ f ∈ out, seenContains seen (symbols.map f) = false) →
      List.Pairwise (fun a b => rowEqual a b = false)
        (out.map (fun f => symbols.map f)) →
      Distinct.run symbols out seen = out := by
  induction out with
  | nil => intro seen _ _; rfl
  | cons f rest ih =>
      intro seen hfresh hpw
      have hcf : seenContains seen (symbols.map f) = false :=
        hfresh f (List.mem_cons_self f rest)
      have hrw : Distinct.run symbols (f :: rest) seen =
          f :: Distinct.run symbols rest (symbols.map f :: seen) := by
        simp [Distinct.run, hcf]
      rw [hrw]
      simp only [List.map_cons, List.pairwise_cons] at hpw
      have hnext : ∀ g ∈ rest, seenContains (symbols.map f :: seen) (symbols.map g) = false := by
        intro g hg
        simp only [seenContains, List.any_cons, Bool.or_eq_false_iff]
        refine ⟨hpw.1 (symbols.map g) (List.mem_map.mpr ⟨g, hg, rfl⟩), ?_⟩
        have := hfresh g (List.mem_cons_of_mem f hg)
        simpa [seenContains] using this
      rw [ih (symbols.map f :: seen) hnext hpw.2]

theorem Distinct.run_covers (symbols : List Nat) (P : List FrameF) :
    ∀ seen : List (List TV), ∀ f ∈ P,
      seenContains seen (symbols.map f) = false →
      ∃ g ∈ Distinct.run symbols P seen,
        rowEqual (symbols.map g) (symbols.map f) = true := by
  induction P with
  | nil =>
      intro seen f hf
      simp at hf
  | cons hd rest ih =>
      intro seen f hf hseen
      rcases List.mem_cons.mp hf with heq | hmem
      · subst heq
        have hrw : Distinct.run symbols (f :: rest) seen =
            f :: Distinct.run symbols rest (symbols.map f :: seen) := by
          simp [Distinct.run, hseen]
        rw [hrw]
        exact ⟨f, List.mem_cons_self _ _, rowEqual_refl _⟩
      · cases hch : seenContains seen (symbols.map hd) with
        | true =>
            have hrw : Distinct.run symbols (hd :: rest) seen =
                Distinct.run symbols rest seen := by
              simp [Distinct.run, hch]
            rw [hrw]
            exact ih seen f hmem hseen
        | false =>
            have hrw : Distinct.run symbols (hd :: rest) seen =
                hd :: Distinct.run symbols rest (symbols.map hd :: seen) := by
              simp [Distinct.run, hch]
            rw [hrw]
            cases hhf : rowEqual (symbols.map hd) (symbols.map f) with
            | true => exact ⟨hd, List.mem_cons_self _ _, hhf⟩
            | false =>
                have hfresh2 :
                    seenContains (symbols.map hd :: seen) (symbols.map f) = false := by
                  simp only [seenContains, List.any_cons, Bool.or_eq_false_iff]
                  exact ⟨hhf, by simpa [seenContains] using hseen⟩
                obtain ⟨g, hg, hge⟩ := ih (symbols.map hd :: seen) f hmem hfresh2
                exact ⟨g, List.mem_cons_of_mem hd hg, hge⟩

/-- Claim C8: Distinct is idempotent — running the output of Distinct
through a fresh Distinct reproduces it exactly (hence the same multiset);
the projections of the output rows on the distinct symbols are pairwise
distinct under the null-aware equality, and every input row has a
representative in the output, so each distinct projection tuple appears
exactly once. -/
theorem distinct_idempotent (symbols : List Nat) (P : List FrameF) :
    Distinct.run symbols (Distinct.run symbols P []) [] = Distinct.run symbols P [] ∧
    List.Pairwise (fun a b => rowEqual a b = false)
      ((Distinct.run symbols P []).map (fun f => symbols.map f)) ∧
    ∀ f ∈ P, ∃ g ∈ Distinct.run symbols P [],
      rowEqual (symbols.map g) (symbols.map f) = true := by
  obtain ⟨hpw, _⟩ := Distinct.run_fresh_pairwise symbols P []
  refine ⟨?_, hpw, ?_⟩
  · exact Distinct.run_fixed symbols _ [] (by intro g _; simp [seenContains]) hpw
  · intro f hf
    exact Distinct.run_covers symbols P [] f hf (by simp [seenContains])

/- ================= Delete (operator.cpp lines 1595-1650) ================= -/

/-- An edge record of the store: identifier and endpoint vertex
identifiers.  Accessors compare by global address (the identifier). -/
structure Edge where
  eid : Nat
  src : Nat
  dst : Nat
  deriving DecidableEq, Repr

/-- The slice of the store Delete touches: the vertices and edges of the
transaction view. -/
structure DB where
  vertices : List Nat
  edges : List Edge
  deriving DecidableEq, Repr

/-- One removal performed by Delete, in execution order. -/
inductive DelEvent where
  | removedEdge (e : Nat)
  | removedVertex (v : Nat)
  deriving DecidableEq, Repr

/-- GraphDbAccessor::RemoveEdge: drop the edge record. -/
def DB.removeEdge (db : DB) (e : Nat) : DB :=
  { db with edges := db.edges.filter (fun x => x.eid ≠ e) }

/-- Whether a vertex still has incident edges. -/
def DB.connected (db : DB) (v : Nat) : Bool :=
  db.edges.any (fun x => x.src = v || x.dst = v)

/-- GraphDbAccessor::RemoveVertex: fails (returns false) when edges
remain. -/
def DB.removeVertex (db : DB) (v : Nat) : Option DB :=
  if db.connected v then none
  else some { db with vertices := db.vertices.filter (fun x => x ≠ v) }

/-- GraphDbAccessor::DetachRemoveVertex: drop the vertex and its incident
edges. -/
def DB.detachRemoveVertex (db : DB) (v : Nat) : DB :=
  { vertices := db.vertices.filter (fun x => x ≠ v),
    edges := db.edges.filter (fun x => ¬(x.src = v || x.dst = v)) }

/-- The first loop of Delete::DeleteCursor::Pull (operator.cpp
line 1617): remove every edge-valued expression result. -/
def Delete.edgesLoop : List TV → DB → DB × List DelEvent
  | [], db => (db, [])
  | .edge e :: rest, db =>
      let r := Delete.edgesLoop rest (db.removeEdge e)
      (r.1, .removedEdge e :: r.2)
  | _ :: rest, db => Delete.edgesLoop rest db

/-- The second loop of Delete::DeleteCursor::Pull (operator.cpp
line 1622): remove vertex results (detach-removing under DETACH, else
failing on a connected vertex), skip edges (already deleted) and nulls
(possible under optional match), and reject every other value kind. -/
def Delete.verticesLoop (detach : Bool) : List TV → DB → Except Err (DB × List DelEvent)
  | [], db => .ok (db, [])
  | .vertex v :: rest, db =>
      if detach then
        match Delete.verticesLoop detach rest (db.detachRemoveVertex v) with
        | .error e => .error e
        | .ok r => .ok (r.1, .removedVertex v :: r.2)
      else
        match db.removeVertex v with
        | none => .error .connectedVertexDeletion
        | some db2 =>
            match Delete.verticesLoop detach rest db2 with
            | .error e => .error e
            | .ok r => .ok (r.1, .removedVertex v :: r.2)
  | .edge _ :: rest, db => Delete.verticesLoop detach rest db
  | .null :: rest, db => Delete.verticesLoop detach rest db
  | _ :: _, _ => .error .deleteOnlyEdgesAndVertices

/-- Delete::DeleteCursor::Pull after the input pull (operator.cpp
line 1599): all expressions are evaluated first (`results` is the list of
their values), then edges are deleted, then vertices. -/
def Delete.pull (detach : Bool) (results : List TV) (db : DB) :
    Except Err (DB × List DelEvent) :=
  let r1 := Delete.edgesLoop results db
  match Delete.verticesLoop detach results r1.1 with
  | .error e => .error e
  | .ok r2 => .ok (r2.1, r1.2 ++ r2.2)

/-- A value Delete accepts: vertex, edge or null. -/
def TV.deletable (t : TV) : Bool :=
  t.isVertex || t.isEdge || t.isNull

theorem Delete.edgesLoop_ignores_null (results : List TV) (db : DB) :
    Delete.edgesLoop results db =
      Delete.edgesLoop (results.filter (fun r => !r.isNull)) db := by
  induction results generalizing db with
  | nil => rfl
  | cons r rest ih =>
      cases r <;> simp [Delete.edgesLoop, TV.isNull, List.filter_cons, ih]

theorem Delete.verticesLoop_ignores_null (detach : Bool) (results : List TV) (db : DB) :
    Delete.verticesLoop detach results db =
      Delete.verticesLoop detach (results.filter (fun r => !r.isNull)) db := by
  induction results generalizing db with
  | nil => rfl
  | cons r rest ih =>
      cases r <;> simp [Delete.verticesLoop, TV.isNull, List.filter_cons, ih]

theorem Delete.verticesLoop_rejects (detach : Bool) (results : List TV) (db : DB)
    (bad : TV) (hmem : bad ∈ results) (hbad : bad.deletable = false) :
    ∃ e : Err, Delete.verticesLoop detach results db = .error e := by
  induction results generalizing db with
  | nil => simp at hmem
  | cons r rest ih =>
      rcases List.mem_cons.mp hmem with heq | hmem2
      · subst heq
        cases bad <;> simp [TV.deletable, TV.isVertex, TV.isEdge, TV.isNull] at hbad
        all_goals exact ⟨.deleteOnlyEdgesAndVertices, rfl⟩
      · cases r with
        | vertex v =>
            cases hd : detach with
            | true =>
                subst hd
                obtain ⟨e, he⟩ := ih (db.detachRemoveVertex v) hmem2
                exact ⟨e, by simp [Delete.verticesLoop, he]⟩
            | false =>
                subst hd
                cases hrv : db.removeVertex v with
                | none =>
                    exact ⟨.connectedVertexDeletion, by simp [Delete.verticesLoop, hrv]⟩
                | some db2 =>
                    obtain ⟨e, he⟩ := ih db2 hmem2
                    exact ⟨e, by simp [Delete.verticesLoop, hrv, he]⟩
        | edge e0 => exact ih db hmem2
        | null => exact ih db hmem2
        | bool b => exact ⟨.deleteOnlyEdgesAndVertices, rfl⟩
        | int n => exact ⟨.deleteOnlyEdgesAndVertices, rfl⟩
        | str s => exact ⟨.deleteOnlyEdgesAndVertices, rfl⟩
        | list l => exact ⟨.deleteOnlyEdgesAndVertices, rfl⟩
        | map m => exact ⟨.deleteOnlyEdgesAndVertices, rfl⟩

theorem Delete.edgesLoop_events (results : List TV) (db : DB) :
    ∀ ev ∈ (Delete.edgesLoop results db).2, ∃ e, ev = DelEvent.removedEdge e := by
  induction results generalizing db with
  | nil => simp [Delete.edgesLoop]
  | cons r rest ih =>
      cases r with
      | edge e =>
          intro ev hev
          simp only [Delete.edgesLoop, List.mem_cons] at hev
          rcases hev with rfl | hev
          · exact ⟨e, rfl⟩
          · exact ih (db.removeEdge e) ev hev
      | null => exact ih db
      | bool b => exact ih db
      | int n => exact ih db
      | str s => exact ih db
      | vertex v => exact ih db
      | list l => exact ih db
      | map m => exact ih db

theorem Delete.verticesLoop_events (detach : Bool) (results : List TV) (db : DB)
    (out : DB × List DelEvent) (h : Delete.verticesLoop detach results db = .ok out) :
    ∀ ev ∈ out.2, ∃ v, ev = DelEvent.removedVertex v := by
  induction results generalizing db out with
  | nil =>
      intro ev hev
      simp only [Delete.verticesLoop] at h
      injection h with h2
      subst h2
      simp at hev
  | cons r rest ih =>
      intro ev hev
      cases r with
      | vertex v =>
          cases hd : detach with
          | true =>
              subst hd
              simp only [Delete.verticesLoop, if_pos rfl] at h
              cases hrec : Delete.verticesLoop true rest (db.detachRemoveVertex v) with
              | error e => rw [hrec] at h; exact absurd h (by simp)
              | ok r2 =>
                  rw [hrec] at h
                  injection h with h2
                  subst h2
                  simp only [List.mem_cons] at hev
                  rcases hev with rfl | hev
                  · exact ⟨v, rfl⟩
                  · exact ih (db.detachRemoveVertex v) r2 hrec ev hev
          | false =>
              subst hd
              simp only [Delete.verticesLoop, Bool.false_eq_true, if_false] at h
              cases hrv : db.removeVertex v with
              | none =>
                  simp only [hrv] at h
                  exact absurd h (by simp)
              | some db2 =>
                  simp only [hrv] at h
                  cases hrec : Delete.verticesLoop false rest db2 with
                  | error e => rw [hrec] at h; exact absurd h (by simp)
                  | ok r2 =>
                      rw [hrec] at h
                      injection h with h2
                      subst h2
                      simp only [List.mem_cons] at hev
                      rcases hev with rfl | hev
                      · exact ⟨v, rfl⟩
                      · exact ih db2 r2 hrec ev hev
      | edge e0 => exact ih db out h ev hev
      | null => exact ih db out h ev hev
      | bool b => simp [Delete.verticesLoop] at h
      | int n => simp [Delete.verticesLoop] at h
      | str s => simp [Delete.verticesLoop] at h
      | list l => simp [Delete.verticesLoop] at h
      | map m => simp [Delete.verticesLoop] at h

/-- Claim C10: Delete skips null expression results entirely; an
expression result that is neither a vertex, an edge nor null makes the
pull fail with QueryError (at a concrete bad value, the error is exactly
the one thrown with the message Can only delete edges and vertices); and
in the removal trace every edge-result removal precedes every
vertex-result removal. -/
theorem delete_null_skip_type_check_order :
    (∀ (detach : Bool) (results : List TV) (db : DB),
        Delete.pull detach results db =
          Delete.pull detach (results.filter (fun r => !r.isNull)) db) ∧
    (∀ (detach : Bool) (results : List TV) (db : DB) (bad : TV),
        bad ∈ results → bad.deletable = false →
        ∃ e : Err, Delete.pull detach results db = .error e) ∧
    (∀ (db : DB), Delete.pull false [.int 5] db = .error .deleteOnlyEdgesAndVertices) ∧
    (∀ (detach : Bool) (results : List TV) (db : DB) (out : DB × List DelEvent),
        Delete.pull detach results db = .ok out →
        ∃ evs1 evs2, out.2 = evs1 ++ evs2 ∧
          (∀ ev ∈ evs1, ∃ e, ev = DelEvent.removedEdge e) ∧
          (∀ ev ∈ evs2, ∃ v, ev = DelEvent.removedVertex v)) := by
  refine ⟨?_, ?_, ?_, ?_⟩
  · intro detach results db
    unfold Delete.pull
    dsimp only
    rw [← Delete.edgesLoop_ignores_null, ← Delete.verticesLoop_ignores_null]
  · intro detach results db bad hmem hbad
    unfold Delete.pull
    dsimp only
    obtain ⟨e, he⟩ := Delete.verticesLoop_rejects detach results
      (Delete.edgesLoop results db).1 bad hmem hbad
    rw [he]
    exact ⟨e, rfl⟩
  · intro db
    rfl
  · intro detach results db out h
    unfold Delete.pull at h
    dsimp only at h
    cases hv : Delete.verticesLoop detach results (Delete.edgesLoop results db).1 with
    | error e => rw [hv] at h; exact absurd h (by simp)
    | ok r2 =>
        rw [hv] at h
        injection h with h2
        subst h2
        refine ⟨(Delete.edgesLoop results db).2, r2.2, rfl, ?_, ?_⟩
        · exact Delete.edgesLoop_events results db
        · exact Delete.verticesLoop_events detach results _ r2 hv

/-- Witness for C10: the Delete semantics at a concrete row — results
null, edge 1, vertex 0 over a two-vertex store whose only edge is edge 1;
nulls are dropped, the bad-value case errors, and a successful pull is
edge events then vertex events. -/
theorem delete_null_skip_type_check_order_witness :
    Delete.pull false [.null, .edge 1, .vertex 0]
        { vertices := [0, 1], edges := [{ eid := 1, src := 0, dst := 1 }] } =
      Delete.pull false [.edge 1, .vertex 0]
        { vertices := [0, 1], edges := [{ eid := 1, src := 0, dst := 1 }] } ∧
    (∃ e : Err, Delete.pull false [.null, .int 5]
        { vertices := [], edges := [] } = .error e) ∧
    Delete.pull false [.int 5] { vertices := [], edges := [] } =
      .error .deleteOnlyEdgesAndVertices ∧
    (∃ evs1 evs2,
      (Delete.pull false [.null, .edge 1, .vertex 0]
          { vertices := [0, 1], edges := [{ eid := 1, src := 0, dst := 1 }] }).toOption.map
            Prod.snd = some (evs1 ++ evs2) ∧
        (∀ ev ∈ evs1, ∃ e, ev = DelEvent.removedEdge e) ∧
        (∀ ev ∈ evs2, ∃ v, ev = DelEvent.removedVertex v)) := by
  refine ⟨?_, ?_, ?_, ?_⟩
  · have h := delete_null_skip_type_check_order.1 false [.null, .edge 1, .vertex 0]
      { vertices := [0, 1], edges := [{ eid := 1, src := 0, dst := 1 }] }
    simpa using h
  · exact delete_null_skip_type_check_order.2.1 false [.null, .int 5]
      { vertices := [], edges := [] } (.int 5) (by simp) (by decide)
  · exact delete_null_skip_type_check_order.2.2.1 { vertices := [], edges := [] }
  · obtain ⟨evs1, evs2, heq, h1, h2⟩ := delete_null_skip_type_check_order.2.2.2 false
      [.null, .edge 1, .vertex 0]
      { vertices := [0, 1], edges := [{ eid := 1, src := 0, dst := 1 }] }
      ({ vertices := [1], edges := [] }, [.removedEdge 1, .removedVertex 0]) (by rfl)
    refine ⟨evs1, evs2, ?_, h1, h2⟩
    have hred : (Delete.pull false [.null, .edge 1, .vertex 0]
        { vertices := [0, 1], edges := [{ eid := 1, src := 0, dst := 1 }] }).toOption.map
          Prod.snd = some [DelEvent.removedEdge 1, DelEvent.removedVertex 0] := rfl
    rw [hred]
    exact congrArg some heq

/- ===== Expansion (operator.cpp lines 468-714 and 753-1037) ===== -/

/-- Expansion direction (EdgeAtom::Direction). -/
inductive Direction where
  | inD
  | outD
  | both
  deriving DecidableEq, Repr

/-- The adjacency the graph accessor exposes: vertex.in() lists the
incident edges with the vertex as destination, vertex.out() those with
the vertex as source. -/
structure Graph where
  inE : Nat → List Edge
  outE : Nat → List Edge

/-- The frame slots the expansion cursors touch: the input symbol, the
node symbol, and the edge symbol, which variable-length expansion keeps
as a list of edges. -/
structure EVFrame where
  inputV : TV
  nodeV : TV
  edgeList : List Edge
  deriving DecidableEq, Repr

/-- The static data of ExpandVariable (type DEPTH_FIRST): the ExpandCommon
fields plus bounds, reversal flag and filter lambda.  The edge-type list
is a predicate on edges; expression evaluation is modelled by evaluated
values — the bound expressions by the TypedValue each evaluates to, the
filter lambda by the TypedValue it evaluates to on the inner edge and
inner node written to the frame. -/
structure ExpandVariableDef where
  direction : Direction
  etypes : Edge → Bool
  isReverse : Bool
  lowerBound : Option TV
  upperBound : Option TV
  existingNode : Bool
  filterExpr : Option (Edge → Nat → TV)

/-- ExpandCommon::HandleExistingNode (operator.cpp line 483): with
existing_node set, a null frame value filters the row out, a non-vertex
raises, and a vertex must equal the new node; otherwise the new node is
written to the node symbol. -/
def HandleExistingNode (existingNode : Bool) (newNode : Nat) (fr : EVFrame) :
    Except Err (Bool × EVFrame) :=
  if existingNode then
    match fr.nodeV with
    | .null => .ok (false, fr)
    | .vertex w => .ok (decide (w = newNode), fr)
    | _ => .error .typeMismatch
  else .ok (true, { fr with nodeV := .vertex newNode })

/-- EvaluateFilter (operator.cpp line 73): null counts as false, a bool is
itself, anything else raises. -/
def EvaluateFilter (result : TV) : Except Err Bool :=
  match result with
  | .null => .ok false
  | .bool b => .ok b
  | _ => .error .filterMustBeBool

/-- EvaluateInt (operator.cpp line 804) applied to an expansion bound. -/
def EvaluateIntBound (value : TV) : Except Err Int :=
  match value with
  | .int n => .ok n
  | _ => .error .boundMustBeInt

/-- The calc_bound lambda of ExpandVariableCursor::PullInput (operator.cpp
line 899): the evaluated int, negative values raising. -/
def calcBound (value : TV) : Except Err Int :=
  match EvaluateIntBound value with
  | .error e => .error e
  | .ok n => if n < 0 then .error .boundNegative else .ok n

/-- ExpandFromVertex (operator.cpp line 764): the incident edges filtered
by direction and edge types, in-edges first, each paired with its
orientation. -/
def ExpandFromVertex (g : Graph) (etypes : Edge → Bool) (v : Nat)
    (direction : Direction) : List (Edge × Direction) :=
  (if direction ≠ Direction.outD
    then ((g.inE v).filter etypes).map (fun e => (e, Direction.inD)) else [])
  ++ (if direction ≠ Direction.inD
    then ((g.outE v).filter etypes).map (fun e => (e, Direction.outD)) else [])

/-- int64 maximum, the default upper bound. -/
def int64Max : Int := 2 ^ 63 - 1

/-- State of ExpandVariableCursor: the evaluated bounds (-1 until the
first input row, as in the source), the stack of per-depth remaining edge
iterators (edges_ fused with edges_it_ into the not-yet-consumed rest;
the head of the list is the deepest level, edges_.back()), and
instrumentation counters of bound-expression evaluations. -/
structure EVState where
  lower : Int
  upper : Int
  stack : List (List (Edge × Direction))
  lowerEvals : Nat
  upperEvals : Nat
  deriving DecidableEq, Repr

/-- A fresh ExpandVariableCursor state. -/
def EVState.initial : EVState :=
  { lower := -1, upper := -1, stack := [], lowerEvals := 0, upperEvals := 0 }

/-- ExpandVariableCursor::PullInput (operator.cpp line 881): input rows
with a null input-symbol value are skipped, a non-vertex raises, then the
bounds are evaluated — once each, lower defaulting to 1 and upper to
int64 max — the first edge level is pushed when the upper bound allows
any expansion, and the frame edge list is reset to empty. -/
def ExpandVariable.pullInput (self : ExpandVariableDef) (g : Graph) :
    List EVFrame → EVState → Except Err (Option (List EVFrame × EVState × EVFrame))
  | [], _ => .ok none
  | f :: rest, s =>
      match f.inputV with
      | .null => ExpandVariable.pullInput self g rest s
      | .vertex v =>
          match (match self.lowerBound with
                 | some b => (calcBound b).map (fun n => (n, s.lowerEvals + 1))
                 | none => .ok (1, s.lowerEvals)) with
          | .error e => .error e
          | .ok (lower, le) =>
              match (match self.upperBound with
                     | some b => (calcBound b).map (fun n => (n, s.upperEvals + 1))
                     | none => .ok (int64Max, s.upperEvals)) with
              | .error e => .error e
              | .ok (upper, ue) =>
                  let stack2 := if 0 < upper
                    then ExpandFromVertex g self.etypes v self.direction :: s.stack
                    else s.stack
                  .ok (some (rest,
                    { lower := lower, upper := upper, stack := stack2,
                      lowerEvals := le, upperEvals := ue },
                    { f with edgeList := [] }))
      | _ => .error .typeMismatch

/-- The frame-edge-list truncation at the top of
ExpandVariableCursor::Expand (operator.cpp lines 982-991): shrink the
frame list to at most the stack depth, erasing at the front under
is_reverse, at the back otherwise. -/
def truncateEdgesOnFrame (isReverse : Bool) (stackLen : Nat) (eof : List Edge) :
    List Edge :=
  if isReverse then eof.drop (eof.length - min eof.length stackLen)
  else eof.take (min eof.length stackLen)

/-- ExpandVariableCursor::AppendEdge (operator.cpp line 926): truncate to
one below the stack depth, then append (prepend under is_reverse) the new
edge. -/
def AppendEdge (isReverse : Bool) (stackLen : Nat) (newEdge : Edge) (eof : List Edge) :
    List Edge :=
  if isReverse then
    newEdge :: eof.drop (eof.length - min eof.length (stackLen - 1))
  else eof.take (min eof.length (stackLen - 1)) ++ [newEdge]

/-- ExpandVariableCursor::Expand (operator.cpp line 956), fuelled (none
is fuel exhaustion, never reached from the claims' witnesses): pop
exhausted stack levels; an empty stack asks the caller to pull the input
(`.ok (false, ...)`); otherwise consume the next (edge, direction) of the
deepest level, skip it when the edge is already on the frame (edge
uniqueness), append it, resolve the expanded vertex, run the
existing-node and filter-lambda checks, push the next level while the
stack is below the upper bound, and produce (`.ok (true, ...)`) once the
frame edge list reaches the lower bound. -/
def ExpandVariable.expand (self : ExpandVariableDef) (g : Graph) :
    Nat → EVState → EVFrame → Option (Except Err (Bool × EVState × EVFrame))
  | 0, _, _ => none
  | fuel + 1, s, fr =>
      match s.stack.dropWhile (fun l => l.isEmpty) with
      | [] => some (.ok (false, { s with stack := [] }, fr))
      | [] :: _ => none
      | ((e, d) :: lvlRest) :: below =>
          let stLen := below.length + 1
          let eof := truncateEdgesOnFrame self.isReverse stLen fr.edgeList
          let fr1 : EVFrame := { fr with edgeList := eof }
          let s1 : EVState := { s with stack := lvlRest :: below }
          if eof.any (fun e0 => decide (e0 = e)) then
            ExpandVariable.expand self g fuel s1 fr1
          else
            let eof2 := AppendEdge self.isReverse stLen e eof
            let fr2 : EVFrame := { fr1 with edgeList := eof2 }
            let newV := if d = Direction.inD then e.src else e.dst
            match HandleExistingNode self.existingNode newV fr2 with
            | .error err => some (.error err)
            | .ok (ok2, fr3) =>
                if !ok2 then ExpandVariable.expand self g fuel s1 fr3
                else
                  match (match self.filterExpr with
                         | some fe => EvaluateFilter (fe e newV)
                         | none => .ok true) with
                  | .error err => some (.error err)
                  | .ok b =>
                      if !b then ExpandVariable.expand self g fuel s1 fr3
                      else
                        let s2 := if (s1.stack.length : Int) < s.upper
                          then { s1 with stack :=
                            ExpandFromVertex g self.etypes newV self.direction
                              :: s1.stack }
                          else s1
                        if (eof2.length : Int) ≥ s.lower then
                          some (.ok (true, s2, fr3))
                        else ExpandVariable.expand self g fuel s2 fr3

/-- ExpandVariableCursor::Pull (operator.cpp line 821), fuelled: expand
when possible, else pull the next input row, yielding the empty path
first when the lower bound is zero. -/
def ExpandVariable.pull (self : ExpandVariableDef) (g : Graph) :
    Nat → List EVFrame → EVState → EVFrame →
      Option (Except Err (Option (List EVFrame × EVState × EVFrame)))
  | 0, _, _, _ => none
  | fuel + 1, input, s, fr =>
      match ExpandVariable.expand self g (fuel + 1) s fr with
      | none => none
      | some (.error e) => some (.error e)
      | some (.ok (true, s2, fr2)) => some (.ok (some (input, s2, fr2)))
      | some (.ok (false, s2, _fr2)) =>
          match ExpandVariable.pullInput self g input s2 with
          | .error e => some (.error e)
          | .ok none => some (.ok none)
          | .ok (some (input2, s3, fr3)) =>
              if s3.lower = 0 then
                match fr3.inputV with
                | .vertex v =>
                    match HandleExistingNode self.existingNode v fr3 with
                    | .error e => some (.error e)
                    | .ok (true, fr4) => some (.ok (some (input2, s3, fr4)))
                    | .ok (false, fr4) => ExpandVariable.pull self g fuel input2 s3 fr4
                | _ => ExpandVariable.pull self g fuel input2 s3 fr3
              else ExpandVariable.pull self g fuel input2 s3 fr3

/-- Drain an ExpandVariableCursor, collecting the produced frames. -/
def ExpandVariable.run (self : ExpandVariableDef) (g : Graph) :
    Nat → List EVFrame → EVState → EVFrame → Option (Except Err (List EVFrame))
  | 0, _, _, _ => none
  | fuel + 1, input, s, fr =>
      match ExpandVariable.pull self g (fuel + 1) input s fr with
      | none => none
      | some (.error e) => some (.error e)
      | some (.ok none) => some (.ok [])
      | some (.ok (some (input2, s2, fr2))) =>
          match ExpandVariable.run self g fuel input2 s2 fr2 with
          | none => none
          | some (.error e) => some (.error e)
          | some (.ok rest) => some (.ok (fr2 :: rest))

/- ============ Edge-uniqueness invariants of variable expansion ============ -/

theorem truncateEdgesOnFrame_nodup (isReverse : Bool) (stackLen : Nat) (eof : List Edge)
    (h : eof.Nodup) : (truncateEdgesOnFrame isReverse stackLen eof).Nodup := by
  unfold truncateEdgesOnFrame
  by_cases hr : isReverse = true
  · rw [if_pos hr]
    exact h.sublist (List.drop_sublist _ _)
  · rw [if_neg hr]
    exact h.sublist (List.take_sublist _ _)

theorem AppendEdge_nodup (isReverse : Bool) (stackLen : Nat) (e : Edge) (eof : List Edge)
    (hnd : eof.Nodup) (hmem : e ∉ eof) : (AppendEdge isReverse stackLen e eof).Nodup := by
  unfold AppendEdge
  by_cases hr : isReverse = true
  · rw [if_pos hr]
    refine List.nodup_cons.mpr ⟨?_, hnd.sublist (List.drop_sublist _ _)⟩
    intro hc
    exact hmem ((List.drop_sublist _ _).mem hc)
  · rw [if_neg hr]
    have h1 : (eof.take (min eof.length (stackLen - 1))).Nodup :=
      hnd.sublist (List.take_sublist _ _)
    have h2 : e ∉ eof.take (min eof.length (stackLen - 1)) := fun hc =>
      hmem ((List.take_sublist _ _).mem hc)
    simp [List.nodup_append, h1, h2]

/-- HandleExistingNode leaves the frame edge list untouched. -/
theorem HandleExistingNode_edgeList (en : Bool) (newNode : Nat) (fr : EVFrame)
    (b : Bool) (fr2 : EVFrame) (h : HandleExistingNode en newNode fr = .ok (b, fr2)) :
    fr2.edgeList = fr.edgeList := by
  unfold HandleExistingNode at h
  by_cases he : en = true
  · rw [if_pos he] at h
    cases hv : fr.nodeV <;> rw [hv] at h <;>
      first
      | (simp only [Except.ok.injEq, Prod.mk.injEq] at h
         rw [← h.2])
      | simp at h
  · rw [if_neg he] at h
    simp only [Except.ok.injEq, Prod.mk.injEq] at h
    rw [← h.2]



theorem ite_cond_true {α : Sort _} (c : Bool) (a b : α) (h : c = true) :
    (if c = true then a else b) = a := by simp [h]

theorem ite_cond_false {α : Sort _} (c : Bool) (a b : α) (h : c = false) :
    (if c = true then a else b) = b := by simp [h]

theorem ExpandVariable.expand_inv (self : ExpandVariableDef) (g : Graph) :
    ∀ (fuel : Nat) (s : EVState) (fr : EVFrame) (bOut : Bool) (sOut : EVState)
      (frOut : EVFrame),
      ExpandVariable.expand self g fuel s fr = some (.ok (bOut, sOut, frOut)) →
      (fr.edgeList.Nodup → frOut.edgeList.Nodup) ∧
      sOut.lowerEvals = s.lowerEvals ∧ sOut.upperEvals = s.upperEvals ∧
      sOut.lower = s.lower ∧ sOut.upper = s.upper := by
  intro fuel
  induction fuel with
  | zero =>
      intro s fr bOut sOut frOut hex
      simp [ExpandVariable.expand] at hex
  | succ fuel ih =>
      intro s fr bOut sOut frOut hex
      cases hds : s.stack.dropWhile (fun l => l.isEmpty) with
      | nil =>
          simp only [ExpandVariable.expand, hds, Option.some.injEq, Except.ok.injEq,
            Prod.mk.injEq] at hex
          obtain ⟨hb, hs, hfr⟩ := hex
          subst hfr
          subst hs
          exact ⟨fun h => h, rfl, rfl, rfl, rfl⟩
      | cons lvl below0 =>
          cases lvl with
          | nil =>
              simp only [ExpandVariable.expand, hds] at hex
              exact absurd hex (by simp)
          | cons ed lvlRest =>
              obtain ⟨e, d⟩ := ed
              simp only [ExpandVariable.expand, hds] at hex
              cases hany : (truncateEdgesOnFrame self.isReverse (below0.length + 1)
                  fr.edgeList).any (fun e0 => decide (e0 = e)) with
              | true =>
                  rw [ite_cond_true _ _ _ hany] at hex
                  have hrec := ih _ _ _ _ _ hex
                  refine ⟨?_, ?_, ?_, ?_, ?_⟩
                  · intro hnd
                    exact hrec.1 (truncateEdgesOnFrame_nodup _ _ _ hnd)
                  · simpa using hrec.2.1
                  · simpa using hrec.2.2.1
                  · simpa using hrec.2.2.2.1
                  · simpa using hrec.2.2.2.2
              | false =>
                  rw [ite_cond_false _ _ _ hany] at hex
                  have hnm : e ∉ truncateEdgesOnFrame self.isReverse (below0.length + 1)
                      fr.edgeList := by
                    intro hc
                    simp only [List.any_eq_false, decide_eq_true_eq] at hany
                    exact hany e hc rfl
                  cases hhe : HandleExistingNode self.existingNode
                      (if d = Direction.inD then e.src else e.dst)
                      { inputV := fr.inputV, nodeV := fr.nodeV,
                        edgeList := AppendEdge self.isReverse (below0.length + 1) e
                          (truncateEdgesOnFrame self.isReverse (below0.length + 1)
                            fr.edgeList) } with
                  | error err =>
                      simp only [hhe] at hex
                      exact absurd hex (by simp)
                  | ok pr =>
                      obtain ⟨ok2, fr3⟩ := pr
                      simp only [hhe] at hex
                      have hfl3 : fr3.edgeList = AppendEdge self.isReverse (below0.length + 1) e
                          (truncateEdgesOnFrame self.isReverse (below0.length + 1)
                            fr.edgeList) :=
                        HandleExistingNode_edgeList _ _ _ _ _ hhe
                      have hnd3 : fr.edgeList.Nodup → fr3.edgeList.Nodup := by
                        intro hnd
                        rw [hfl3]
                        exact AppendEdge_nodup _ _ _ _
                          (truncateEdgesOnFrame_nodup _ _ _ hnd) hnm
                      cases hok : ok2 with
                      | false =>
                          subst hok
                          simp only [Bool.not_false] at hex
                          have hrec := ih _ _ _ _ _ hex
                          exact ⟨fun hnd => hrec.1 (hnd3 hnd), by simpa using hrec.2.1,
                            by simpa using hrec.2.2.1, by simpa using hrec.2.2.2.1,
                            by simpa using hrec.2.2.2.2⟩
                      | true =>
                          subst hok
                          simp only [Bool.not_true] at hex
                          rw [ite_cond_false _ _ _ rfl] at hex
                          cases hfe : (match self.filterExpr with
                            | some fe => EvaluateFilter
                                (fe e (if d = Direction.inD then e.src else e.dst))
                            | none => Except.ok true) with
                          | error err =>
                              simp only [hfe] at hex
                              exact absurd hex (by simp)
                          | ok bf =>
                              simp only [hfe] at hex
                              cases hbf : bf with
                              | false =>
                                  subst hbf
                                  simp only [Bool.not_false] at hex
                                  have hrec := ih _ _ _ _ _ hex
                                  exact ⟨fun hnd => hrec.1 (hnd3 hnd),
                                    by simpa using hrec.2.1, by simpa using hrec.2.2.1,
                                    by simpa using hrec.2.2.2.1,
                                    by simpa using hrec.2.2.2.2⟩
                              | true =>
                                  subst hbf
                                  simp only [Bool.not_true] at hex
                                  rw [ite_cond_false _ _ _ rfl] at hex
                                  by_cases hlow : ((((AppendEdge self.isReverse
                                      (below0.length + 1) e
                                      (truncateEdgesOnFrame self.isReverse
                                        (below0.length + 1) fr.edgeList)).length : Int)
                                      ≥ s.lower))
                                  · rw [if_pos hlow] at hex
                                    by_cases hcnd : (((lvlRest :: below0).length : Int)
                                        < s.upper)
                                    · rw [if_pos hcnd] at hex
                                      simp only [Option.some.injEq, Except.ok.injEq,
                                        Prod.mk.injEq] at hex
                                      obtain ⟨hb, hs, hfr⟩ := hex
                                      subst hfr
                                      rw [← hs]
                                      exact ⟨fun hnd => hnd3 hnd, rfl, rfl, rfl, rfl⟩
                                    · rw [if_neg hcnd] at hex
                                      simp only [Option.some.injEq, Except.ok.injEq,
                                        Prod.mk.injEq] at hex
                                      obtain ⟨hb, hs, hfr⟩ := hex
                                      subst hfr
                                      rw [← hs]
                                      exact ⟨fun hnd => hnd3 hnd, rfl, rfl, rfl, rfl⟩
                                  · rw [if_neg hlow] at hex
                                    by_cases hcnd : (((lvlRest :: below0).length : Int)
                                        < s.upper)
                                    · rw [if_pos hcnd] at hex
                                      have hrec := ih _ _ _ _ _ hex
                                      exact ⟨fun hnd => hrec.1 (hnd3 hnd),
                                        by simpa using hrec.2.1,
                                        by simpa using hrec.2.2.1,
                                        by simpa using hrec.2.2.2.1,
                                        by simpa using hrec.2.2.2.2⟩
                                    · rw [if_neg hcnd] at hex
                                      have hrec := ih _ _ _ _ _ hex
                                      exact ⟨fun hnd => hrec.1 (hnd3 hnd),
                                        by simpa using hrec.2.1,
                                        by simpa using hrec.2.2.1,
                                        by simpa using hrec.2.2.2.1,
                                        by simpa using hrec.2.2.2.2⟩


theorem evalBound_evals (bv : Option TV) (ev : Nat) (dflt : Int) (n2 : Int) (ev2 : Nat)
    (h : (match bv with
          | some b => (calcBound b).map (fun n => (n, ev + 1))
          | none => Except.ok (dflt, ev)) = .ok (n2, ev2)) :
    ev2 = ev + (if bv.isSome then 1 else 0) := by
  cases bv with
  | none =>
      simp only [Except.ok.injEq, Prod.mk.injEq] at h
      simp [← h.2]
  | some b =>
      cases hc : calcBound b with
      | error e => simp [hc, Except.map] at h
      | ok n =>
          simp only [hc, Except.map, Except.ok.injEq, Prod.mk.injEq] at h
          simp [← h.2]

theorem ExpandVariable.pullInput_inv (self : ExpandVariableDef) (g : Graph) :
    ∀ (input : List EVFrame) (s : EVState) (input2 : List EVFrame) (s2 : EVState)
      (fr2 : EVFrame),
      ExpandVariable.pullInput self g input s = .ok (some (input2, s2, fr2)) →
      fr2.edgeList = [] ∧
      s2.lowerEvals = s.lowerEvals + (if self.lowerBound.isSome then 1 else 0) ∧
      s2.upperEvals = s.upperEvals + (if self.upperBound.isSome then 1 else 0) := by
  intro input
  induction input with
  | nil =>
      intro s i2 s2 fr2 h
      simp [ExpandVariable.pullInput] at h
  | cons f rest ih =>
      intro s i2 s2 fr2 h
      cases hv : f.inputV with
      | null =>
          simp only [ExpandVariable.pullInput, hv] at h
          exact ih _ _ _ _ h
      | vertex v =>
          simp only [ExpandVariable.pullInput, hv] at h
          cases hlo : (match self.lowerBound with
              | some b => (calcBound b).map (fun n => (n, s.lowerEvals + 1))
              | none => Except.ok (1, s.lowerEvals)) with
          | error e0 =>
              simp only [hlo] at h
              exact absurd h (by simp)
          | ok pl =>
              obtain ⟨lowerv, le⟩ := pl
              simp only [hlo] at h
              cases hup : (match self.upperBound with
                  | some b => (calcBound b).map (fun n => (n, s.upperEvals + 1))
                  | none => Except.ok (int64Max, s.upperEvals)) with
              | error e0 =>
                  simp only [hup] at h
                  exact absurd h (by simp)
              | ok pu =>
                  obtain ⟨upperv, ue⟩ := pu
                  simp only [hup] at h
                  simp only [Except.ok.injEq, Option.some.injEq, Prod.mk.injEq] at h
                  obtain ⟨hi, hs, hfr⟩ := h
                  refine ⟨by rw [← hfr], ?_, ?_⟩
                  · rw [← hs]
                    exact evalBound_evals self.lowerBound s.lowerEvals 1 lowerv le hlo
                  · rw [← hs]
                    exact evalBound_evals self.upperBound s.upperEvals int64Max upperv ue hup
      | bool b =>
          simp only [ExpandVariable.pullInput, hv] at h
          exact absurd h (by simp)
      | int n =>
          simp only [ExpandVariable.pullInput, hv] at h
          exact absurd h (by simp)
      | str v =>
          simp only [ExpandVariable.pullInput, hv] at h
          exact absurd h (by simp)
      | edge e0 =>
          simp only [ExpandVariable.pullInput, hv] at h
          exact absurd h (by simp)
      | list l =>
          simp only [ExpandVariable.pullInput, hv] at h
          exact absurd h (by simp)
      | map m =>
          simp only [ExpandVariable.pullInput, hv] at h
          exact absurd h (by simp)


theorem ExpandVariable.pull_nodup (self : ExpandVariableDef) (g : Graph) :
    ∀ (fuel : Nat) (input : List EVFrame) (s : EVState) (fr : EVFrame)
      (input2 : List EVFrame) (s2 : EVState) (fr2 : EVFrame),
      fr.edgeList.Nodup →
      ExpandVariable.pull self g fuel input s fr =
        some (.ok (some (input2, s2, fr2))) →
      fr2.edgeList.Nodup := by
  intro fuel
  induction fuel with
  | zero =>
      intro input s fr i2 s2 fr2 hnd h
      simp [ExpandVariable.pull] at h
  | succ fuel ih =>
      intro input s fr i2 s2 fr2 hnd h
      cases hexp : ExpandVariable.expand self g (fuel + 1) s fr with
      | none =>
          simp only [ExpandVariable.pull, hexp] at h
          exact absurd h (by simp)
      | some r =>
          cases r with
          | error e0 =>
              simp only [ExpandVariable.pull, hexp] at h
              exact absurd h (by simp)
          | ok tr =>
              obtain ⟨b, sE, frE⟩ := tr
              cases hb : b with
              | true =>
                  subst hb
                  simp only [ExpandVariable.pull, hexp, Option.some.injEq,
                    Except.ok.injEq, Prod.mk.injEq] at h
                  obtain ⟨hi, hs, hfr⟩ := h
                  rw [← hfr]
                  exact (ExpandVariable.expand_inv self g _ _ _ _ _ _ hexp).1 hnd
              | false =>
                  subst hb
                  simp only [ExpandVariable.pull, hexp] at h
                  cases hpi : ExpandVariable.pullInput self g input sE with
                  | error e0 =>
                      simp only [hpi] at h
                      exact absurd h (by simp)
                  | ok o =>
                      cases o with
                      | none =>
                          simp only [hpi] at h
                          exact absurd h (by simp)
                      | some tr2 =>
                          obtain ⟨input3, s3, fr3⟩ := tr2
                          simp only [hpi] at h
                          have hfr3 : fr3.edgeList = [] :=
                            (ExpandVariable.pullInput_inv self g input sE input3 s3 fr3 hpi).1
                          have hnd3 : fr3.edgeList.Nodup := by
                            rw [hfr3]
                            exact List.nodup_nil
                          by_cases hl0 : s3.lower = 0
                          · rw [if_pos hl0] at h
                            cases hval : fr3.inputV with
                            | vertex v =>
                                simp only [hval] at h
                                cases hhe : HandleExistingNode self.existingNode v fr3 with
                                | error e0 =>
                                    simp only [hhe] at h
                                    exact absurd h (by simp)
                                | ok pr =>
                                    obtain ⟨bb, fr4⟩ := pr
                                    simp only [hhe] at h
                                    have hnd4 : fr4.edgeList.Nodup := by
                                      rw [HandleExistingNode_edgeList _ _ _ _ _ hhe]
                                      exact hnd3
                                    cases hbb : bb with
                                    | true =>
                                        subst hbb
                                        simp only [Option.some.injEq, Except.ok.injEq,
                                          Prod.mk.injEq] at h
                                        obtain ⟨hi, hs, hfr⟩ := h
                                        rw [← hfr]
                                        exact hnd4
                                    | false =>
                                        subst hbb
                                        exact ih _ _ _ _ _ _ hnd4 h
                            | null =>
                                simp only [hval] at h
                                exact ih _ _ _ _ _ _ hnd3 h
                            | bool b2 =>
                                simp only [hval] at h
                                exact ih _ _ _ _ _ _ hnd3 h
                            | int n =>
                                simp only [hval] at h
                                exact ih _ _ _ _ _ _ hnd3 h
                            | str v2 =>
                                simp only [hval] at h
                                exact ih _ _ _ _ _ _ hnd3 h
                            | edge e2 =>
                                simp only [hval] at h
                                exact ih _ _ _ _ _ _ hnd3 h
                            | list l2 =>
                                simp only [hval] at h
                                exact ih _ _ _ _ _ _ hnd3 h
                            | map m2 =>
                                simp only [hval] at h
                                exact ih _ _ _ _ _ _ hnd3 h
                          · rw [if_neg hl0] at h
                            exact ih _ _ _ _ _ _ hnd3 h


theorem ExpandVariable.run_nodup (self : ExpandVariableDef) (g : Graph) :
    ∀ (fuel : Nat) (input : List EVFrame) (s : EVState) (fr : EVFrame)
      (rows : List EVFrame),
      fr.edgeList.Nodup →
      ExpandVariable.run self g fuel input s fr = some (.ok rows) →
      ∀ r ∈ rows, r.edgeList.Nodup := by
  intro fuel
  induction fuel with
  | zero =>
      intro input s fr rows hnd h
      simp [ExpandVariable.run] at h
  | succ fuel ih =>
      intro input s fr rows hnd h
      cases hp : ExpandVariable.pull self g (fuel + 1) input s fr with
      | none =>
          simp only [ExpandVariable.run, hp] at h
          exact absurd h (by simp)
      | some r =>
          cases r with
          | error e0 =>
              simp only [ExpandVariable.run, hp] at h
              exact absurd h (by simp)
          | ok o =>
              cases o with
              | none =>
                  simp only [ExpandVariable.run, hp, Option.some.injEq,
                    Except.ok.injEq] at h
                  subst h
                  intro r hr
                  simp at hr
              | some tr =>
                  obtain ⟨input2, s2, fr2⟩ := tr
                  simp only [ExpandVariable.run, hp] at h
                  have hnd2 : fr2.edgeList.Nodup :=
                    ExpandVariable.pull_nodup self g (fuel + 1) input s fr
                      input2 s2 fr2 hnd hp
                  cases hrec : ExpandVariable.run self g fuel input2 s2 fr2 with
                  | none =>
                      simp only [hrec] at h
                      exact absurd h (by simp)
                  | some r2 =>
                      cases r2 with
                      | error e0 =>
                          simp only [hrec] at h
                          exact absurd h (by simp)
                      | ok rest =>
                          simp only [hrec, Option.some.injEq, Except.ok.injEq] at h
                          subst h
                          intro r hr
                          rcases List.mem_cons.mp hr with rfl | hr2
                          · exact hnd2
                          · exact ih input2 s2 fr2 rest hnd2 hrec r hr2

/-- Static data of single-step Expand (the ExpandCommon fields). -/
structure ExpandDef where
  direction : Direction
  etypes : Edge → Bool
  existingNode : Bool

/-- The in_edges_ and out_edges_ members of Expand::ExpandCursor, fused
with their iterators into the unconsumed remainder; none models
std::experimental::nullopt (never initialised). -/
structure ExpandEdgesSt where
  inE : Option (List Edge)
  outE : Option (List Edge)

/-- Expand::ExpandCursor::InitEdges (operator.cpp line 663): pull input
rows, skipping those whose input-symbol value is null (failed optional
match) and type-checking the rest, then initialise the in- and out-edge
iterators according to the direction.  vertex.in(dest) keeps only the
edges arriving from dest and vertex.out(dest) only those leaving towards
dest; with existing_node set and a null node value the source leaves the
optional in_edges_/out_edges_ unset and then takes an iterator from the
empty optional (the model keeps the previous member instead). -/
def Expand.initEdges (self : ExpandDef) (g : Graph) :
    List EVFrame → ExpandEdgesSt → Except Err (Option (List EVFrame × ExpandEdgesSt))
  | [], _ => .ok none
  | f :: rest, st =>
      match f.inputV with
      | .null => Expand.initEdges self g rest st
      | .vertex v =>
          match (if self.direction = Direction.inD ∨ self.direction = Direction.both then
                   if self.existingNode then
                     match f.nodeV with
                     | .null => Except.ok st.inE
                     | .vertex w =>
                         .ok (some (((g.inE v).filter self.etypes).filter
                           (fun e => decide (e.src = w))))
                     | _ => .error .typeMismatch
                   else .ok (some ((g.inE v).filter self.etypes))
                 else Except.ok st.inE) with
          | .error e => .error e
          | .ok newIn =>
              match (if self.direction = Direction.outD ∨
                       self.direction = Direction.both then
                       if self.existingNode then
                         match f.nodeV with
                         | .null => Except.ok st.outE
                         | .vertex w =>
                             .ok (some (((g.outE v).filter self.etypes).filter
                               (fun e => decide (e.dst = w))))
                         | _ => .error .typeMismatch
                       else .ok (some ((g.outE v).filter self.etypes))
                     else Except.ok st.outE) with
              | .error e => .error e
              | .ok newOut => .ok (some (rest, { inE := newIn, outE := newOut }))
      | _ => .error .typeMismatch


/-- A concrete path graph 0 → 1 → 2 for the expansion witnesses. -/
def evGraph : Graph :=
  { inE := fun v => if v = 1 then [⟨1, 0, 1⟩] else if v = 2 then [⟨2, 1, 2⟩] else [],
    outE := fun v => if v = 0 then [⟨1, 0, 1⟩] else if v = 1 then [⟨2, 1, 2⟩] else [] }

/-- A concrete depth-first ExpandVariable with bounds 1 and 2. -/
def evSelf : ExpandVariableDef :=
  { direction := .outD, etypes := fun _ => true, isReverse := false,
    lowerBound := some (.int 1), upperBound := some (.int 2),
    existingNode := false, filterExpr := none }

/-- evSelf with both bounds −1. -/
def evSelfNeg : ExpandVariableDef :=
  { evSelf with lowerBound := some (.int (-1)), upperBound := some (.int (-1)) }

/-- An input row holding vertex 0. -/
def evRow : EVFrame := { inputV := .vertex 0, nodeV := .null, edgeList := [] }

/-- An all-null starting frame. -/
def evFrame0 : EVFrame := { inputV := .null, nodeV := .null, edgeList := [] }

/-- Claim C4: for every row produced by depth-first variable-length
expansion, no edge occurs twice in the edge list bound to the edge
symbol — before an edge is appended it is checked against every edge
already on the path and skipped when present, so freedom from duplicates
is invariant under Pull and holds for every row of a drain started on a
duplicate-free frame. -/
theorem expand_variable_edge_uniqueness :
    (∀ (self : ExpandVariableDef) (g : Graph) (fuel : Nat)
        (input input2 : List EVFrame) (s s2 : EVState) (fr fr2 : EVFrame),
        fr.edgeList.Nodup →
        ExpandVariable.pull self g fuel input s fr =
          some (.ok (some (input2, s2, fr2))) →
        fr2.edgeList.Nodup) ∧
    (∀ (self : ExpandVariableDef) (g : Graph) (fuel : Nat) (input : List EVFrame)
        (s : EVState) (fr : EVFrame) (rows : List EVFrame),
        fr.edgeList.Nodup →
        ExpandVariable.run self g fuel input s fr = some (.ok rows) →
        ∀ r ∈ rows, r.edgeList.Nodup) :=
  ⟨fun self g fuel input input2 s s2 fr fr2 hnd h =>
      ExpandVariable.pull_nodup self g fuel input s fr input2 s2 fr2 hnd h,
    fun self g fuel input s fr rows hnd h =>
      ExpandVariable.run_nodup self g fuel input s fr rows hnd h⟩

/-- The first row of the concrete drain below: path of one edge. -/
def evOut1 : EVFrame :=
  { inputV := .vertex 0, nodeV := .vertex 1, edgeList := [⟨1, 0, 1⟩] }

/-- The second row of the concrete drain below: path of two edges. -/
def evOut2 : EVFrame :=
  { inputV := .vertex 0, nodeV := .vertex 2, edgeList := [⟨1, 0, 1⟩, ⟨2, 1, 2⟩] }

/-- Witness for C4: edge uniqueness on the concrete two-row drain of
evSelf over the path graph. -/
theorem expand_variable_edge_uniqueness_witness :
    ∀ r ∈ [evOut1, evOut2], r.edgeList.Nodup :=
  expand_variable_edge_uniqueness.2 evSelf evGraph 20 [evRow] EVState.initial evFrame0
    [evOut1, evOut2] (by decide) rfl

/-- Claim C2 counterexample: with both bounds evaluating to −1 on a
vertex input row the depth-first expansion raises QueryError (Variable
expansion bound must be positive or zero) instead of yielding an empty
result without error, as the claim states. -/
theorem expand_variable_negative_bound_cex :
    ExpandVariable.run evSelfNeg evGraph 3 [evRow] EVState.initial evFrame0 =
      some (.error .boundNegative) := rfl

/-- Claim C2 (amended): the bound expressions are evaluated exactly once
per successfully pulled input row and never during expansion; an upper
bound 0 with a positive lower bound yields no rows for that input row and
no error; when BOTH bounds are negative the pull raises QueryError
(Variable expansion bound must be positive or zero) rather than producing
an empty result. -/
theorem expand_variable_bounds :
    (∀ (self : ExpandVariableDef) (g : Graph) (input input2 : List EVFrame)
        (s s2 : EVState) (fr2 : EVFrame),
        ExpandVariable.pullInput self g input s = .ok (some (input2, s2, fr2)) →
        s2.lowerEvals = s.lowerEvals + (if self.lowerBound.isSome then 1 else 0) ∧
        s2.upperEvals = s.upperEvals + (if self.upperBound.isSome then 1 else 0)) ∧
    (∀ (self : ExpandVariableDef) (g : Graph) (fuel : Nat) (s : EVState)
        (fr : EVFrame) (bOut : Bool) (sOut : EVState) (frOut : EVFrame),
        ExpandVariable.expand self g fuel s fr = some (.ok (bOut, sOut, frOut)) →
        sOut.lowerEvals = s.lowerEvals ∧ sOut.upperEvals = s.upperEvals) ∧
    (∀ (self : ExpandVariableDef) (g : Graph) (f : EVFrame) (v : Nat) (l : Int)
        (s : EVState) (fr : EVFrame),
        self.lowerBound = some (.int l) → 0 < l → self.upperBound = some (.int 0) →
        f.inputV = .vertex v → s.stack = [] →
        ExpandVariable.run self g 3 [f] s fr = some (.ok [])) ∧
    (∀ (self : ExpandVariableDef) (g : Graph) (f : EVFrame) (v : Nat) (n m : Int)
        (rest : List EVFrame) (s : EVState),
        self.lowerBound = some (.int n) → n < 0 →
        self.upperBound = some (.int m) → m < 0 → f.inputV = .vertex v →
        ExpandVariable.pullInput self g (f :: rest) s = .error .boundNegative) := by
  refine ⟨?_, ?_, ?_, ?_⟩
  · intro self g input input2 s s2 fr2 h
    exact (ExpandVariable.pullInput_inv self g input s input2 s2 fr2 h).2
  · intro self g fuel s fr bOut sOut frOut h
    have hrec := ExpandVariable.expand_inv self g fuel s fr bOut sOut frOut h
    exact ⟨hrec.2.1, hrec.2.2.1⟩
  · intro self g f v l s fr hlb hl hub hv hst
    have hln : ¬ (l < 0) := by omega
    have hl0 : ¬ (l = 0) := by omega
    rcases f with ⟨iv, nv, el⟩
    dsimp only at hv
    subst hv
    show ExpandVariable.run self g (2 + 1) _ s fr = some (.ok [])
    simp [ExpandVariable.run, ExpandVariable.pull, ExpandVariable.expand,
      ExpandVariable.pullInput, hlb, hub, calcBound, EvaluateIntBound, Except.map,
      hln, hl0, hst]
  · intro self g f v n m rest s hlb hn hub hm hv
    rcases f with ⟨iv, nv, el⟩
    dsimp only at hv
    subst hv
    simp [ExpandVariable.pullInput, hlb, calcBound, EvaluateIntBound, Except.map, hn]


/-- Witness for C2 (amended claim): the bound discipline at concrete
cursors — one evaluation of each bound on the first input row of evSelf,
the empty result for upper 0 with lower 1, and the QueryError when both
bounds are negative. -/
theorem expand_variable_bounds_witness :
    (∃ input2 s2 fr2,
      ExpandVariable.pullInput evSelf evGraph [evRow] EVState.initial =
        .ok (some (input2, s2, fr2)) ∧
      s2.lowerEvals = 1 ∧ s2.upperEvals = 1) ∧
    ExpandVariable.run { evSelf with upperBound := some (.int 0) } evGraph 3 [evRow]
      EVState.initial evFrame0 = some (.ok []) ∧
    ExpandVariable.pullInput evSelfNeg evGraph [evRow] EVState.initial =
      .error .boundNegative := by
  refine ⟨?_, ?_, ?_⟩
  · refine ⟨[], { lower := 1, upper := 0 + 2, stack :=
      [[(⟨1, 0, 1⟩, Direction.outD)]], lowerEvals := 1, upperEvals := 1 }, _, rfl, ?_, ?_⟩
    · have h := (expand_variable_bounds.1 evSelf evGraph [evRow] [] EVState.initial
        { lower := 1, upper := 0 + 2, stack := [[(⟨1, 0, 1⟩, Direction.outD)]],
          lowerEvals := 1, upperEvals := 1 }
        { inputV := .vertex 0, nodeV := .null, edgeList := [] } rfl).1
      simp [evSelf, EVState.initial]
    · have h := (expand_variable_bounds.1 evSelf evGraph [evRow] [] EVState.initial
        { lower := 1, upper := 0 + 2, stack := [[(⟨1, 0, 1⟩, Direction.outD)]],
          lowerEvals := 1, upperEvals := 1 }
        { inputV := .vertex 0, nodeV := .null, edgeList := [] } rfl).2
      simp [evSelf, EVState.initial]
  · exact expand_variable_bounds.2.2.1 { evSelf with upperBound := some (.int 0) }
      evGraph evRow 0 1 EVState.initial evFrame0 rfl (by decide) rfl rfl rfl
  · exact expand_variable_bounds.2.2.2 evSelfNeg evGraph evRow 0 (-1) (-1) []
      EVState.initial rfl (by decide) rfl (by decide) rfl

/-- Claim C9: for every input row whose value at the expansion input
symbol is null (for example from a failed optional match), both Expand
and variable-length expansion produce no row and raise no error for that
row — they skip it and pull the next input row; a non-null non-vertex
value at the input symbol raises the ExpectType error instead. -/
theorem expansion_null_input_skip :
    (∀ (self : ExpandVariableDef) (g : Graph) (f : EVFrame) (rest : List EVFrame)
        (s : EVState), f.inputV = .null →
        ExpandVariable.pullInput self g (f :: rest) s =
          ExpandVariable.pullInput self g rest s) ∧
    (∀ (self : ExpandVariableDef) (g : Graph) (f : EVFrame) (rest : List EVFrame)
        (s : EVState), f.inputV.isNull = false → f.inputV.isVertex = false →
        ExpandVariable.pullInput self g (f :: rest) s = .error .typeMismatch) ∧
    (∀ (self : ExpandDef) (g : Graph) (f : EVFrame) (rest : List EVFrame)
        (st : ExpandEdgesSt), f.inputV = .null →
        Expand.initEdges self g (f :: rest) st = Expand.initEdges self g rest st) ∧
    (∀ (self : ExpandDef) (g : Graph) (f : EVFrame) (rest : List EVFrame)
        (st : ExpandEdgesSt), f.inputV.isNull = false → f.inputV.isVertex = false →
        Expand.initEdges self g (f :: rest) st = .error .typeMismatch) := by
  refine ⟨?_, ?_, ?_, ?_⟩
  · intro self g f rest s hv
    rcases f with ⟨iv, nv, el⟩
    dsimp only at hv
    subst hv
    simp [ExpandVariable.pullInput]
  · intro self g f rest s hnn hnv
    rcases f with ⟨iv, nv, el⟩
    dsimp only at hnn hnv
    cases iv <;> simp [TV.isNull, TV.isVertex] at hnn hnv <;>
      simp [ExpandVariable.pullInput]
  · intro self g f rest st hv
    rcases f with ⟨iv, nv, el⟩
    dsimp only at hv
    subst hv
    simp [Expand.initEdges]
  · intro self g f rest st hnn hnv
    rcases f with ⟨iv, nv, el⟩
    dsimp only at hnn hnv
    cases iv <;> simp [TV.isNull, TV.isVertex] at hnn hnv <;>
      simp [Expand.initEdges]

/-- A concrete single-step Expand for the C9 witness. -/
def exSelf : ExpandDef :=
  { direction := .outD, etypes := fun _ => true, existingNode := false }

/-- A null input row. -/
def evNullRow : EVFrame := { inputV := .null, nodeV := .null, edgeList := [] }

/-- An int-valued (ill-typed) input row. -/
def evBadRow : EVFrame := { inputV := .int 7, nodeV := .null, edgeList := [] }

/-- Witness for C9: the null-skip and the type error at concrete rows for
both cursors. -/
theorem expansion_null_input_skip_witness :
    ExpandVariable.pullInput evSelf evGraph [evNullRow, evRow] EVState.initial =
      ExpandVariable.pullInput evSelf evGraph [evRow] EVState.initial ∧
    ExpandVariable.pullInput evSelf evGraph [evBadRow] EVState.initial =
      .error .typeMismatch ∧
    Expand.initEdges exSelf evGraph [evNullRow, evRow] { inE := none, outE := none } =
      Expand.initEdges exSelf evGraph [evRow] { inE := none, outE := none } ∧
    Expand.initEdges exSelf evGraph [evBadRow] { inE := none, outE := none } =
      .error .typeMismatch := by
  refine ⟨?_, ?_, ?_, ?_⟩
  · exact expansion_null_input_skip.1 evSelf evGraph evNullRow [evRow]
      EVState.initial rfl
  · exact expansion_null_input_skip.2.1 evSelf evGraph evBadRow []
      EVState.initial (by decide) (by decide)
  · exact expansion_null_input_skip.2.2.1 exSelf evGraph evNullRow [evRow]
      { inE := none, outE := none } rfl
  · exact expansion_null_input_skip.2.2.2 exSelf evGraph evBadRow []
      { inE := none, outE := none } (by decide) (by decide)

end MG
